import Mathlib

set_option maxHeartbeats 1000000

namespace Ratcheting

/-- Decoded value algebra produced by the JSON decoding layer: null, boolean,
number, string, ordered list, or string-keyed map (represented as an
association list of fields; decoded Go maps have unique keys). A Go nil
interface value (decoded JSON null) is represented by the null constructor. -/
inductive JSONValue where
  | null : JSONValue
  | bool (b : Bool) : JSONValue
  | num (n : Int) : JSONValue
  | str (s : String) : JSONValue
  | arr (xs : List JSONValue) : JSONValue
  | obj (fields : List (String × JSONValue)) : JSONValue

/-- Lookup of a field in a decoded map, mirroring a Go map read with the
comma-ok idiom: present with its value, or absent. -/
def lookupField : List (String × JSONValue) → String → Option JSONValue
  | [], _ => none
  | (k, v) :: rest, f => if k = f then some v else lookupField rest f

/-- Go type assertion to a list, as in value dot parenthesized bracket
interface brace: succeeds exactly on the arr constructor. -/
def asArr : JSONValue → Option (List JSONValue)
  | .arr xs => some xs
  | _ => none

/-- Go type assertion to a string-keyed map: succeeds exactly on the obj
constructor. -/
def asObj : JSONValue → Option (List (String × JSONValue))
  | .obj fields => some fields
  | _ => none

/-- Test for the Go nil interface value, as in the comparisons against nil
performed by CachedDeepEqual. -/
def JSONValue.isNull : JSONValue → Bool
  | .null => true
  | _ => false

mutual

/-- Model of reflect.DeepEqual restricted to the decoded value algebra:
scalars compare by value and kind, lists compare pointwise in order, maps
compare as unordered key-value collections, and values of different kinds
are never equal. -/
def deepEqual : JSONValue → JSONValue → Bool
  | .null, .null => true
  | .bool a, .bool b => a == b
  | .num a, .num b => a == b
  | .str a, .str b => a == b
  | .arr xs, .arr ys => xs.length == ys.length && deepEqualList xs ys
  | .obj xs, .obj ys => xs.length == ys.length && deepEqualFields xs ys
  | _, _ => false

/-- Pointwise deep equality of two lists of equal length. -/
def deepEqualList : List JSONValue → List JSONValue → Bool
  | [], [] => true
  | x :: xs, y :: ys => deepEqual x y && deepEqualList xs ys
  | _, _ => false

/-- Every field of the first map must be present in the second map with a
deeply equal value, mirroring how reflect.DeepEqual walks map entries. -/
def deepEqualFields : List (String × JSONValue) → List (String × JSONValue) → Bool
  | [], _ => true
  | (k, v) :: rest, ys =>
    (match lookupField ys k with
     | some w => deepEqual v w
     | none => false) && deepEqualFields rest ys

end

/-- Schema node (spec.Schema), reduced to the facts the correlation core
reads: declared property schemas, the additional-properties schema (the
composite nil checks on the Go SchemaOrBool pointer and its Schema field
collapse to the none case), the items schema (likewise for SchemaOrArray),
the x-kubernetes-list-type extension string when present, and the
x-kubernetes-list-map-keys merge keys. -/
inductive Schema where
  | mk (properties : List (String × Schema))
       (additionalProperties : Option Schema)
       (items : Option Schema)
       (listType : Option String)
       (listMapKeys : List String) : Schema

def Schema.properties : Schema → List (String × Schema)
  | .mk p _ _ _ _ => p

def Schema.additionalProperties : Schema → Option Schema
  | .mk _ a _ _ _ => a

def Schema.items : Schema → Option Schema
  | .mk _ _ i _ _ => i

def Schema.listType : Schema → Option String
  | .mk _ _ _ t _ => t

def Schema.listMapKeys : Schema → List String
  | .mk _ _ _ _ k => k

/-- Read of the declared property schemas with the comma-ok idiom. -/
def lookupProp : List (String × Schema) → String → Option Schema
  | [], _ => none
  | (k, v) :: rest, f => if k = f then some v else lookupProp rest f

def listTypeMap : String := "map"

def listTypeSet : String := "set"

def listTypeAtomic : String := "atomic"

/-- Empty string returned by Extensions.GetString when the extension is
absent; the Go code ignores the ok flag and switches on the string. -/
def noListType : String := ""

/-- Key of an entry in the children map of a correlation node: Go stores
either a string (property name) or an int (list index) in the
interface-keyed map. -/
inductive ChildKey where
  | field (s : String) : ChildKey
  | idx (i : Int) : ChildKey
deriving DecidableEq

/-- Modelled from the spec: the external map-list helper
celopenapi.MakeMapList is not part of this repository. Per the spec it
builds a lookup from each old element's merge-key values to that element;
elements that are not maps or that lack a merge key are not indexed, and
a lookup with an element that is not a map or lacks a merge key misses.
Duplicate merge-key behavior is delegated by the spec to the collaborator;
this model keeps the first matching element. -/
structure MapList where
  mapKeys : List String
  entries : List (List JSONValue × JSONValue)

/-- Merge-key values of an element: all declared keys must be present in
the element, which must be a map. -/
def extractKeys (keys : List String) (v : JSONValue) : Option (List JSONValue) :=
  match v with
  | .obj fields => keys.mapM (fun k => lookupField fields k)
  | _ => none

/-- Modelled from the spec: construction of the keyed lookup over the old
list elements (see MapList). With no declared merge keys the lookup is
empty, matching the degenerate empty map-list of the collaborator. -/
def makeMapList (s : Schema) (elements : List JSONValue) : MapList :=
  if s.listMapKeys.isEmpty then
    { mapKeys := s.listMapKeys, entries := [] }
  else
    { mapKeys := s.listMapKeys
      , entries := elements.filterMap
          (fun e => (extractKeys s.listMapKeys e).map (fun ks => (ks, e))) }

/-- Deep equality of two merge-key tuples. -/
def keysMatch (a b : List JSONValue) : Bool :=
  a.length == b.length && deepEqualList a b

/-- Modelled from the spec: lookup of the old element whose merge-key
values match those of the given new element; a Go nil result (no match, or
uncorrelatable query element) is the null value. -/
def MapList.get (ml : MapList) (v : JSONValue) : JSONValue :=
  match extractKeys ml.mapKeys v with
  | none => JSONValue.null
  | some ks =>
    match ml.entries.find? (fun ent => keysMatch ent.1 ks) with
    | some ent => ent.2
    | none => JSONValue.null

/-- Correlation node (Go type CorrelatedObject): the old and new values at
one schema position, the governing schema (a nil Go pointer is none), the
memoized comparison result, the cached map-list of a map-type list, and
the children map populated during the traversal, keyed by property name or
list index. -/
inductive CorrelatedObject where
  | mk (OldValue : JSONValue)
       (Value : JSONValue)
       (Schema : Option Schema)
       (comparisonResult : Option Bool)
       (mapList : Option MapList)
       (children : List (ChildKey × CorrelatedObject)) : CorrelatedObject

def CorrelatedObject.OldValue : CorrelatedObject → JSONValue
  | .mk o _ _ _ _ _ => o

def CorrelatedObject.Value : CorrelatedObject → JSONValue
  | .mk _ v _ _ _ _ => v

def CorrelatedObject.Schema : CorrelatedObject → Option Schema
  | .mk _ _ s _ _ _ => s

def CorrelatedObject.comparisonResult : CorrelatedObject → Option Bool
  | .mk _ _ _ c _ _ => c

def CorrelatedObject.mapList : CorrelatedObject → Option MapList
  | .mk _ _ _ _ m _ => m

def CorrelatedObject.children : CorrelatedObject → List (ChildKey × CorrelatedObject)
  | .mk _ _ _ _ _ cs => cs

/-- Write of the mapList scratch field, leaving every other field alone. -/
def CorrelatedObject.setMapList : CorrelatedObject → Option MapList → CorrelatedObject
  | .mk o v s c _ cs, m => .mk o v s c m cs

/-- Write of the children scratch field, leaving every other field alone. -/
def CorrelatedObject.setChildren : CorrelatedObject → List (ChildKey × CorrelatedObject) → CorrelatedObject
  | .mk o v s c m _, cs => .mk o v s c m cs

/-- Combined write of the comparisonResult and children scratch fields
performed when CachedDeepEqual returns. -/
def CorrelatedObject.setScratch : CorrelatedObject → Option Bool → List (ChildKey × CorrelatedObject) → CorrelatedObject
  | .mk o v s _ m _, c, cs => .mk o v s c m cs

/-- Constructor NewCorrelatedObject: a fresh node with empty scratch
space. Argument order follows the Go source, new value first. -/
def NewCorrelatedObject (new old : JSONValue) (schema : Option Schema) : CorrelatedObject :=
  .mk old new schema none none []

/-- Read of the children map with the comma-ok idiom. -/
def lookupChild : List (ChildKey × CorrelatedObject) → ChildKey → Option CorrelatedObject
  | [], _ => none
  | (k, c) :: rest, key => if k = key then some c else lookupChild rest key

/-- Replacement of the node stored under an existing key, modelling the
in-place mutation of a child reached through the children map. -/
def updateChild : List (ChildKey × CorrelatedObject) → ChildKey → CorrelatedObject → List (ChildKey × CorrelatedObject)
  | [], _, _ => []
  | (k, c) :: rest, key, c2 => if k = key then (k, c2) :: rest else (k, c) :: updateChild rest key c2

/-- Outcome of running a piece of Go code that can panic: either a runtime
fault or a normal result. -/
inductive Exec (A : Type) where
  | fault : Exec A
  | ok (a : A) : Exec A

/-- Go slice indexing with a machine integer index: panics (faults) when
the index is negative or not below the length. -/
def listGetInt (xs : List JSONValue) (i : Int) : Exec JSONValue :=
  if 0 ≤ i ∧ i < (xs.length : Int) then Exec.ok (xs.getD i.toNat JSONValue.null)
  else Exec.fault

/-- Correlation of the old counterpart for the new element at the given
index, following the Go method line for line: nil unless both values are
lists and the index is below the new length; then the schema pointer is
dereferenced (a fault if it were nil, though the only caller checks it
first) and the list-type extension selects the strategy. Map strategy:
index the new list (a fault on a negative index), build and cache the
map-list if not yet cached, and look the new element up in it. Set and
atomic strategies: nil. Default: positional, nil when the index is not
below the old length, else the old element at the index (a fault on a
negative index). A Go nil result and a null old element are the same
value. The returned node carries the possibly updated mapList cache. -/
def correlateOldValueForChildAtNewIndex (r : CorrelatedObject) (index : Int) : Exec (JSONValue × CorrelatedObject) :=
  match asArr r.OldValue with
  | none => Exec.ok (JSONValue.null, r)
  | some oldAsList =>
    match asArr r.Value with
    | none => Exec.ok (JSONValue.null, r)
    | some asList =>
      if (asList.length : Int) ≤ index then Exec.ok (JSONValue.null, r)
      else
        match r.Schema with
        | none => Exec.fault
        | some s =>
          let listType := s.listType.getD noListType
          if listType = listTypeMap then
            match listGetInt asList index with
            | Exec.fault => Exec.fault
            | Exec.ok currentElement =>
              match r.mapList with
              | some oldList => Exec.ok (oldList.get currentElement, r)
              | none =>
                let oldList := makeMapList s oldAsList
                Exec.ok (oldList.get currentElement, r.setMapList (some oldList))
          else if listType = listTypeSet then
            Exec.ok (JSONValue.null, r)
          else if listType = listTypeAtomic then
            Exec.ok (JSONValue.null, r)
          else
            if (oldAsList.length : Int) ≤ index then Exec.ok (JSONValue.null, r)
            else
              match listGetInt oldAsList index with
              | Exec.fault => Exec.fault
              | Exec.ok v => Exec.ok (v, r)

/-- Property navigation (Go method Key on a possibly nil receiver, hence
the Option): nil child on a nil receiver or nil schema; a memoized child
is returned as is; then both values must be maps and the field present in
both; the child schema is the declared property schema, else the
additional-properties schema, else the lookup fails; on success the fresh
child is appended to the children map. The second component is the
receiver after the call. -/
def CorrelatedObject.Key : Option CorrelatedObject → String → Option CorrelatedObject × Option CorrelatedObject
  | none, _ => (none, none)
  | some l, field =>
    match l.Schema with
    | none => (none, some l)
    | some s =>
      match lookupChild l.children (ChildKey.field field) with
      | some existing => (some existing, some l)
      | none =>
        match asObj l.OldValue, asObj l.Value with
        | some oldAsMap, some newAsMap =>
          match lookupField oldAsMap field, lookupField newAsMap field with
          | some oldValueForField, some newValueForField =>
            match lookupProp s.properties field with
            | some prop =>
              let res := NewCorrelatedObject newValueForField oldValueForField (some prop)
              (some res, some (l.setChildren (l.children ++ [(ChildKey.field field, res)])))
            | none =>
              match s.additionalProperties with
              | some addS =>
                let res := NewCorrelatedObject newValueForField oldValueForField (some addS)
                (some res, some (l.setChildren (l.children ++ [(ChildKey.field field, res)])))
              | none => (none, some l)
          | _, _ => (none, some l)
        | _, _ => (none, some l)

/-- Index navigation (Go method Index on a possibly nil receiver): nil
child on a nil receiver or nil schema; a memoized child is returned as is;
the new value must be a list with the index below its length; the old
counterpart is resolved by correlateOldValueForChildAtNewIndex and a nil
counterpart means no correlation; an items schema must exist; on success
the fresh child holding the new element (a Go index expression which can
fault) is appended to the children map. The second component is the
receiver after the call. -/
def CorrelatedObject.Index : Option CorrelatedObject → Int → Exec (Option CorrelatedObject × Option CorrelatedObject)
  | none, _ => Exec.ok (none, none)
  | some l, i =>
    match l.Schema with
    | none => Exec.ok (none, some l)
    | some s =>
      match lookupChild l.children (ChildKey.idx i) with
      | some existing => Exec.ok (some existing, some l)
      | none =>
        match asArr l.Value with
        | none => Exec.ok (none, some l)
        | some asList =>
          if (asList.length : Int) ≤ i then Exec.ok (none, some l)
          else
            match correlateOldValueForChildAtNewIndex l i with
            | Exec.fault => Exec.fault
            | Exec.ok (oldValueForIndex, l2) =>
              if oldValueForIndex.isNull then Exec.ok (none, some l2)
              else
                match s.items with
                | none => Exec.ok (none, some l2)
                | some itemSchema =>
                  match listGetInt asList i with
                  | Exec.fault => Exec.fault
                  | Exec.ok newElement =>
                    let res := NewCorrelatedObject newElement oldValueForIndex (some itemSchema)
                    Exec.ok (some res, some (l2.setChildren (l2.children ++ [(ChildKey.idx i, res)])))

theorem sizeOf_children_lt (r : CorrelatedObject) : sizeOf r.children < sizeOf r := by
  cases r with
  | mk o v s c m cs =>
    simp [CorrelatedObject.children]
    try omega

theorem sizeOf_lookupChild_lt : ∀ (cs : List (ChildKey × CorrelatedObject)) (k : ChildKey) (c : CorrelatedObject), lookupChild cs k = some c → sizeOf c < sizeOf cs := by
  intro cs
  induction cs with
  | nil =>
    intro k c h
    simp [lookupChild] at h
  | cons hd tl ih =>
    intro k c h
    obtain ⟨k2, c2⟩ := hd
    rw [lookupChild] at h
    split at h
    · injection h with h2
      subst h2
      simp
      try omega
    · have := ih k c h
      simp
      try omega

mutual

/-- Memoized structural equality (Go method CachedDeepEqual): a cached
result is returned with the node untouched; otherwise the comparison is
computed and the deferred write stores it in comparisonResult, together
with the child nodes updated in place by the recursive calls. -/
def CachedDeepEqual (r : CorrelatedObject) : Bool × CorrelatedObject :=
  match r.comparisonResult with
  | some b => (b, r)
  | none =>
    let p := cdeCompute r
    (p.1, r.setScratch (some p.1) p.2)
termination_by (sizeOf r, 1)
decreasing_by
  simp_wf
  exact Prod.Lex.right (sizeOf r) (by omega)

/-- Body of CachedDeepEqual past the cache consult, following the Go
control flow: nil checks on both values; list branch with the length
check, the populated-children count check and the per-index loop; map
branch with the key-count check, the both-empty early return, the
populated-children count check and the per-key loop over the old keys;
generic reflect.DeepEqual fallback for everything else. Returns the
result and the children after the recursive in-place updates. -/
def cdeCompute (r : CorrelatedObject) : Bool × List (ChildKey × CorrelatedObject) :=
  if r.Value.isNull && r.OldValue.isNull then (true, r.children)
  else if r.Value.isNull || r.OldValue.isNull then (false, r.children)
  else
    match asArr r.OldValue, asArr r.Value with
    | some oldAsArray, some newAsArray =>
      if oldAsArray.length != newAsArray.length then (false, r.children)
      else if r.children.length != oldAsArray.length then (false, r.children)
      else cdeListLoop r.children r.children 0 newAsArray.length
    | some _, none => (false, r.children)
    | none, some _ => (false, r.children)
    | none, none =>
      match asObj r.OldValue, asObj r.Value with
      | some oldAsMap, some newAsMap =>
        if oldAsMap.length != newAsMap.length then (false, r.children)
        else if oldAsMap.length == 0 && newAsMap.length == 0 then (true, r.children)
        else if r.children.length != oldAsMap.length then (false, r.children)
        else cdeMapLoop r.children r.children (oldAsMap.map Prod.fst)
      | some _, none => (false, r.children)
      | none, some _ => (false, r.children)
      | none, none => (deepEqual r.OldValue r.Value, r.children)
termination_by (sizeOf r, 0)
decreasing_by
  all_goals simp_wf
  all_goals exact Prod.Lex.left _ _ (sizeOf_children_lt r)

/-- Loop over the indices of the new list: each index must have a
populated child and every child must be recursively equal; children
visited so far keep the updates made by their recursive calls even when
the loop exits early. Reads go to the children map as it was on entry
(orig); the Go loop only ever rewrites the entry it just visited, so
later reads are unaffected. -/
def cdeListLoop (orig acc : List (ChildKey × CorrelatedObject)) (i n : Nat) : Bool × List (ChildKey × CorrelatedObject) :=
  if h : i < n then
    match hc : lookupChild orig (ChildKey.idx (i : Int)) with
    | none => (false, acc)
    | some child =>
      let p := CachedDeepEqual child
      let acc2 := updateChild acc (ChildKey.idx (i : Int)) p.2
      if p.1 then cdeListLoop orig acc2 (i + 1) n else (false, acc2)
  else (true, acc)
termination_by (sizeOf orig, n - i)
decreasing_by
  · simp_wf
    exact Prod.Lex.left _ _ (sizeOf_lookupChild_lt orig _ child hc)
  · simp_wf
    exact Prod.Lex.right (sizeOf orig) (by omega)

/-- Loop over the keys of the old map, mirroring the Go range loop; the
model fixes the iteration order to the order of the decoded field list. -/
def cdeMapLoop (orig : List (ChildKey × CorrelatedObject)) : List (ChildKey × CorrelatedObject) → List String → Bool × List (ChildKey × CorrelatedObject)
  | acc, [] => (true, acc)
  | acc, k :: rest =>
    match hc : lookupChild orig (ChildKey.field k) with
    | none => (false, acc)
    | some child =>
      let p := CachedDeepEqual child
      let acc2 := updateChild acc (ChildKey.field k) p.2
      if p.1 then cdeMapLoop orig acc2 rest else (false, acc2)
termination_by acc keys => (sizeOf orig, keys.length)
decreasing_by
  · simp_wf
    exact Prod.Lex.left _ _ (sizeOf_lookupChild_lt orig _ child hc)
  · simp_wf
    exact Prod.Lex.right (sizeOf orig) (by omega)

end

mutual

/-- Reference equality of the specification, its five steps in order: both
values null means equal and exactly one null means not equal; two lists
are not equal when the lengths differ or the populated-children count
differs from the list length, else equal exactly when every index has a
recursively equal child; two maps are not equal when the key counts
differ, trivially equal when both are empty, not equal when the
populated-children count differs from the key count, else equal exactly
when every key has a recursively equal child (a missing child is treated
as not equal per the children invariant of the spec); mixed shapes are not
equal; otherwise both values are scalars and generic structural equality
over the decoded-value algebra decides. -/
def specDeepEqual (r : CorrelatedObject) : Bool :=
  if r.Value.isNull && r.OldValue.isNull then true
  else if r.Value.isNull || r.OldValue.isNull then false
  else
    match asArr r.OldValue, asArr r.Value with
    | some oldAsArray, some newAsArray =>
      if oldAsArray.length != newAsArray.length then false
      else if r.children.length != oldAsArray.length then false
      else specListLoop r.children 0 newAsArray.length
    | some _, none => false
    | none, some _ => false
    | none, none =>
      match asObj r.OldValue, asObj r.Value with
      | some oldAsMap, some newAsMap =>
        if oldAsMap.length != newAsMap.length then false
        else if oldAsMap.length == 0 && newAsMap.length == 0 then true
        else if r.children.length != oldAsMap.length then false
        else specMapLoop r.children (oldAsMap.map Prod.fst)
      | some _, none => false
      | none, some _ => false
      | none, none => deepEqual r.OldValue r.Value
termination_by (sizeOf r, 0)
decreasing_by
  all_goals simp_wf
  all_goals exact Prod.Lex.left _ _ (sizeOf_children_lt r)

/-- Reference per-index loop: every index of the new list must have a
recursively equal populated child. -/
def specListLoop (orig : List (ChildKey × CorrelatedObject)) (i n : Nat) : Bool :=
  if h : i < n then
    match hc : lookupChild orig (ChildKey.idx (i : Int)) with
    | none => false
    | some child => specDeepEqual child && specListLoop orig (i + 1) n
  else true
termination_by (sizeOf orig, n - i)
decreasing_by
  · simp_wf
    exact Prod.Lex.left _ _ (sizeOf_lookupChild_lt orig _ child hc)
  · simp_wf
    exact Prod.Lex.right (sizeOf orig) (by omega)

/-- Reference per-key loop: every key of the old map must have a
recursively equal populated child. -/
def specMapLoop (orig : List (ChildKey × CorrelatedObject)) : List String → Bool
  | [] => true
  | k :: rest =>
    match hc : lookupChild orig (ChildKey.field k) with
    | none => false
    | some child => specDeepEqual child && specMapLoop orig rest
termination_by keys => (sizeOf orig, keys.length)
decreasing_by
  · simp_wf
    exact Prod.Lex.left _ _ (sizeOf_lookupChild_lt orig _ child hc)
  · simp_wf
    exact Prod.Lex.right (sizeOf orig) (by omega)

end

mutual

/-- Consistency of the memoized comparison results in a correlation tree:
every cached boolean agrees with the reference equality of its node. Every
state reachable by the validator satisfies this, since caches are only
ever written by CachedDeepEqual itself. -/
def cacheOk (r : CorrelatedObject) : Bool :=
  (match r.comparisonResult with
   | none => true
   | some b => b == specDeepEqual r) && cacheOkChildren r.children
termination_by (sizeOf r, 1)
decreasing_by
  simp_wf
  exact Prod.Lex.left _ _ (sizeOf_children_lt r)

/-- The cacheOk predicate over a children map. -/
def cacheOkChildren : List (ChildKey × CorrelatedObject) → Bool
  | [] => true
  | (_, c) :: rest => cacheOk c && cacheOkChildren rest
termination_by cs => (sizeOf cs, 0)
decreasing_by
  · simp_wf
    exact Prod.Lex.left _ _ (by first | (simp; try omega) | omega | simp_arith)
  · simp_wf
    exact Prod.Lex.left _ _ (by first | (simp; try omega) | omega | simp_arith)

end

/-- Modelled from the spec: the validation result of the external
kube-openapi engine is an ordered list of errors and a separate ordered
list of warnings (match counts and the other bookkeeping of the
collaborator are out of scope). -/
structure Result where
  errors : List String
  warnings : List String

/-- Modelled from the spec: a result is valid when it reports no
failures. -/
def Result.IsValid (r : Result) : Bool :=
  r.errors.isEmpty

/-- Modelled from the spec: merging a result into another as warnings
reclassifies every error of the merged result as a warning and keeps its
warnings as warnings. -/
def Result.MergeAsWarnings (r other : Result) : Result :=
  { errors := r.errors, warnings := r.warnings ++ other.errors ++ other.warnings }

/-- Fresh empty result, as in the Go composite literal. -/
def emptyResult : Result :=
  { errors := [], warnings := [] }

/-- Opaque root document argument threaded through the validator
constructors; never inspected by this core. -/
structure RootObj where
  tag : String

/-- Opaque format registry threaded through the validator constructors;
never inspected by this core. -/
structure Registry where
  tag : String

/-- Opaque validation option threaded through the validator constructors;
never inspected by this core (the shim only prepends its own option in
front of them). -/
structure ValidateOption where
  tag : String

/-- Opaque reflect.Kind argument of the Applies hook. -/
structure GoKind where
  tag : String

/-- Arguments of the kube-openapi schema validator constructor, stored by
the ratcheting wrapper (Go struct schemaArgs). -/
structure SchemaArgs where
  schema : Option Schema
  root : RootObj
  path : String
  knownFormats : Registry
  options : List ValidateOption

/-- Validator returned by a factory hook: either the engine default
schema validator built from the given arguments (an external black box,
identified here by its construction arguments) or a ratcheting validator
bound to a correlation node. -/
inductive ValueValidator where
  | schemaValidator (schema : Option Schema) (root : RootObj) (path : String) (formats : Registry) (options : List ValidateOption) : ValueValidator
  | ratchetingValidator (args : SchemaArgs) (correlation : CorrelatedObject) : ValueValidator

/-- Go struct ratchetingValueValidator: the stored constructor arguments
and the correlation node of the value being validated. -/
structure RatchetingValueValidator where
  args : SchemaArgs
  correlation : CorrelatedObject

/-- Constructor newRatchetingValueValidator. -/
def newRatchetingValueValidator (correlation : CorrelatedObject) (args : SchemaArgs) : RatchetingValueValidator :=
  { args := args, correlation := correlation }

/-- Ratcheting policy of the Go method Validate. The invocation of the
external engine on the new value (with the shim option installed) is
external; its result is the engineResult argument. The policy of the
source then applies: a valid result is returned unchanged; otherwise,
when CachedDeepEqual holds, a fresh result absorbs the failing result as
warnings; otherwise the failing result is returned unchanged. The second
component is the validator with the correlation node state after the
call. -/
def RatchetingValueValidator.Validate (r : RatchetingValueValidator) (engineResult : Result) : Result × RatchetingValueValidator :=
  if engineResult.IsValid then (engineResult, r)
  else
    let p := CachedDeepEqual r.correlation
    if p.1 then
      (emptyResult.MergeAsWarnings engineResult, { r with correlation := p.2 })
    else
      (engineResult, { r with correlation := p.2 })

/-- Factory hook for sub-properties (Go method SubPropertyValidator):
attempts Key on the correlation node; with no correlated child the
engine default validator is built from the given arguments unchanged,
else a ratcheting validator bound to the child carries the same
arguments. The second component is the receiver after the call. -/
def RatchetingValueValidator.SubPropertyValidator (r : RatchetingValueValidator) (field : String) (schema : Option Schema) (rootSchema : RootObj) (root : String) (formats : Registry) (options : List ValidateOption) : ValueValidator × RatchetingValueValidator :=
  let p := CorrelatedObject.Key (some r.correlation) field
  match p.1 with
  | none => (ValueValidator.schemaValidator schema rootSchema root formats options, { r with correlation := p.2.getD r.correlation })
  | some childNode =>
    (ValueValidator.ratchetingValidator { schema := schema, root := rootSchema, path := root, knownFormats := formats, options := options } childNode,
     { r with correlation := p.2.getD r.correlation })

/-- Factory hook for sub-indices (Go method SubIndexValidator), symmetric
to SubPropertyValidator via Index; a fault of Index propagates. -/
def RatchetingValueValidator.SubIndexValidator (r : RatchetingValueValidator) (index : Int) (schema : Option Schema) (rootSchema : RootObj) (root : String) (formats : Registry) (options : List ValidateOption) : Exec (ValueValidator × RatchetingValueValidator) :=
  match CorrelatedObject.Index (some r.correlation) index with
  | Exec.fault => Exec.fault
  | Exec.ok p =>
    match p.1 with
    | none => Exec.ok (ValueValidator.schemaValidator schema rootSchema root formats options, { r with correlation := p.2.getD r.correlation })
    | some childNode =>
      Exec.ok (ValueValidator.ratchetingValidator { schema := schema, root := rootSchema, path := root, knownFormats := formats, options := options } childNode,
       { r with correlation := p.2.getD r.correlation })

/-- Go method SetPath: does nothing. -/
def RatchetingValueValidator.SetPath (r : RatchetingValueValidator) (path : String) : RatchetingValueValidator :=
  r

/-- Go method Applies: a ratcheting validator never declines to run. -/
def RatchetingValueValidator.Applies (r : RatchetingValueValidator) (source : JSONValue) (valueKind : GoKind) : Bool :=
  true

attribute [simp] CorrelatedObject.OldValue CorrelatedObject.Value CorrelatedObject.Schema CorrelatedObject.comparisonResult CorrelatedObject.mapList CorrelatedObject.children

attribute [simp] Schema.properties Schema.additionalProperties Schema.items Schema.listType Schema.listMapKeys

attribute [simp] NewCorrelatedObject

theorem CachedDeepEqual_cached (r : CorrelatedObject) (b : Bool) (h : r.comparisonResult = some b) : CachedDeepEqual r = (b, r) := by
  unfold CachedDeepEqual
  rw [h]

theorem CachedDeepEqual_not_cached (r : CorrelatedObject) (h : r.comparisonResult = none) : CachedDeepEqual r = ((cdeCompute r).1, r.setScratch (some (cdeCompute r).1) (cdeCompute r).2) := by
  unfold CachedDeepEqual
  rw [h]

theorem comparisonResult_setScratch (r : CorrelatedObject) (c : Option Bool) (cs : List (ChildKey × CorrelatedObject)) : (r.setScratch c cs).comparisonResult = c := by
  cases r
  rfl

/-- Claim C5: calling CachedDeepEqual twice on the same node returns the
same result and performs the recursive comparison only once. The first
call stores the computed boolean in the comparison cache of the node it
returns, on every branch; a call on a node whose cache is set returns the
stored boolean immediately, leaving the node untouched and without
re-examining values or children; hence the second call is the identity on
the state produced by the first and returns the same boolean. -/
theorem claim_C5 (r : CorrelatedObject) :
    ((CachedDeepEqual r).2).comparisonResult = some ((CachedDeepEqual r).1) ∧
    (∀ b : Bool, r.comparisonResult = some b → CachedDeepEqual r = (b, r)) ∧
    CachedDeepEqual ((CachedDeepEqual r).2) = ((CachedDeepEqual r).1, (CachedDeepEqual r).2) := by
  refine ⟨?_, ?_, ?_⟩
  · cases hcr : r.comparisonResult with
    | some b => rw [CachedDeepEqual_cached r b hcr]; exact hcr
    | none => rw [CachedDeepEqual_not_cached r hcr]; exact comparisonResult_setScratch r _ _
  · intro b hb
    exact CachedDeepEqual_cached r b hb
  · have h1 : ((CachedDeepEqual r).2).comparisonResult = some ((CachedDeepEqual r).1) := by
      cases hcr : r.comparisonResult with
      | some b => rw [CachedDeepEqual_cached r b hcr]; exact hcr
      | none => rw [CachedDeepEqual_not_cached r hcr]; exact comparisonResult_setScratch r _ _
    exact CachedDeepEqual_cached _ _ h1

/-- Witness node for claim C5: a node with its comparison cache set. -/
def wCachedNode : CorrelatedObject :=
  CorrelatedObject.mk (JSONValue.num 1) (JSONValue.num 2) none (some true) none []

theorem claim_C5_witness :
    wCachedNode.comparisonResult = some true ∧ CachedDeepEqual wCachedNode = (true, wCachedNode) :=
  ⟨rfl, (claim_C5 wCachedNode).2.1 true rfl⟩

/-- Claim C1: the ratcheting Validate returns the engine result unchanged
when it reports no failures; when it reports failures it returns a result
with every error reclassified as a warning and zero errors exactly when
CachedDeepEqual of the node holds, and the result with its errors
unchanged when it does not. -/
theorem claim_C1 (r : RatchetingValueValidator) (engineResult : Result) :
    (engineResult.IsValid = true → RatchetingValueValidator.Validate r engineResult = (engineResult, r)) ∧
    (engineResult.IsValid = false → (CachedDeepEqual r.correlation).1 = true →
      ((RatchetingValueValidator.Validate r engineResult).1.errors = [] ∧
       (RatchetingValueValidator.Validate r engineResult).1.warnings = engineResult.errors ++ engineResult.warnings)) ∧
    (engineResult.IsValid = false → (CachedDeepEqual r.correlation).1 = false →
      (RatchetingValueValidator.Validate r engineResult).1 = engineResult) := by
  refine ⟨?_, ?_, ?_⟩
  · intro hv
    simp [RatchetingValueValidator.Validate, hv]
  · intro hv he
    simp [RatchetingValueValidator.Validate, hv, he, emptyResult, Result.MergeAsWarnings]
  · intro hv he
    simp [RatchetingValueValidator.Validate, hv, he]

/-- Witness arguments shared by validator-level witnesses. -/
def wRoot : RootObj :=
  { tag := "doc" }

def wReg : Registry :=
  { tag := "formats" }

def wKind : GoKind :=
  { tag := "string" }

def wOptA : ValidateOption :=
  { tag := "optA" }

def wArgs : SchemaArgs :=
  { schema := none, root := wRoot, path := "p", knownFormats := wReg, options := [wOptA] }

/-- Scalar correlation node with identical old and new values. -/
def wScalarNode : CorrelatedObject :=
  CorrelatedObject.mk (JSONValue.num 1) (JSONValue.num 1) none none none []

def wRVV : RatchetingValueValidator :=
  { args := wArgs, correlation := wScalarNode }

def wBadRes : Result :=
  { errors := ["bad"], warnings := ["warn"] }

theorem claim_C1_witness :
    wBadRes.IsValid = false ∧ (CachedDeepEqual wRVV.correlation).1 = true ∧
    ((RatchetingValueValidator.Validate wRVV wBadRes).1.errors = [] ∧
     (RatchetingValueValidator.Validate wRVV wBadRes).1.warnings = wBadRes.errors ++ wBadRes.warnings) :=
  ⟨by simp [wBadRes, Result.IsValid],
   by simp [wRVV, wScalarNode, CachedDeepEqual, cdeCompute, deepEqual, JSONValue.isNull, asArr, asObj],
   (claim_C1 wRVV wBadRes).2.1 (by simp [wBadRes, Result.IsValid])
     (by simp [wRVV, wScalarNode, CachedDeepEqual, cdeCompute, deepEqual, JSONValue.isNull, asArr, asObj])⟩

/-- Claim C8: each shim hook returns the engine default validator for the
child schema when Key (respectively Index) yields no correlated child,
and a ratcheting validator bound to the child correlation node otherwise;
in both cases the caller-supplied configuration arguments are passed
through unchanged into the constructed validator; SetPath does nothing
and Applies holds for every input. -/
theorem claim_C8 (r : RatchetingValueValidator) (field : String) (index : Int) (schema : Option Schema) (rootSchema : RootObj) (root : String) (formats : Registry) (options : List ValidateOption) (src : JSONValue) (kind : GoKind) :
    ((CorrelatedObject.Key (some r.correlation) field).1 = none →
      (r.SubPropertyValidator field schema rootSchema root formats options).1 =
        ValueValidator.schemaValidator schema rootSchema root formats options) ∧
    (∀ c : CorrelatedObject, (CorrelatedObject.Key (some r.correlation) field).1 = some c →
      (r.SubPropertyValidator field schema rootSchema root formats options).1 =
        ValueValidator.ratchetingValidator { schema := schema, root := rootSchema, path := root, knownFormats := formats, options := options } c) ∧
    (∀ p : Option CorrelatedObject × Option CorrelatedObject,
      CorrelatedObject.Index (some r.correlation) index = Exec.ok p →
      (p.1 = none →
        r.SubIndexValidator index schema rootSchema root formats options =
          Exec.ok (ValueValidator.schemaValidator schema rootSchema root formats options,
            { r with correlation := p.2.getD r.correlation })) ∧
      (∀ c : CorrelatedObject, p.1 = some c →
        r.SubIndexValidator index schema rootSchema root formats options =
          Exec.ok (ValueValidator.ratchetingValidator { schema := schema, root := rootSchema, path := root, knownFormats := formats, options := options } c,
            { r with correlation := p.2.getD r.correlation }))) ∧
    r.SetPath root = r ∧
    r.Applies src kind = true := by
  refine ⟨?_, ?_, ?_, rfl, rfl⟩
  · intro hk
    simp [RatchetingValueValidator.SubPropertyValidator, hk]
  · intro c hk
    simp [RatchetingValueValidator.SubPropertyValidator, hk]
  · intro p hi
    refine ⟨?_, ?_⟩
    · intro hp
      simp [RatchetingValueValidator.SubIndexValidator, hi, hp]
    · intro c hp
      simp [RatchetingValueValidator.SubIndexValidator, hi, hp]

def wField : String := "f"

def wPath : String := "p"

theorem claim_C8_witness :
    (CorrelatedObject.Key (some wRVV.correlation) wField).1 = none ∧
    (wRVV.SubPropertyValidator wField none wRoot wPath wReg [wOptA]).1 =
      ValueValidator.schemaValidator none wRoot wPath wReg [wOptA] :=
  ⟨rfl, (claim_C8 wRVV wField 0 none wRoot wPath wReg [wOptA] JSONValue.null wKind).1 rfl⟩

/-- Claim C6: Key returns null on a null receiver, a node with no schema,
or when either value is not a map; with a schema and no memoized child it
requires the field to be present in both maps; the child schema is the
declared property schema, else the additional-properties schema, else the
lookup returns null; a successful lookup appends the child to the
children map, and a memoized child is returned for a repeated lookup. -/
theorem claim_C6 (l : CorrelatedObject) (field : String) (s : Schema) :
    CorrelatedObject.Key none field = (none, none) ∧
    (l.Schema = none → CorrelatedObject.Key (some l) field = (none, some l)) ∧
    (l.Schema = some s → ∀ c : CorrelatedObject, lookupChild l.children (ChildKey.field field) = some c →
      CorrelatedObject.Key (some l) field = (some c, some l)) ∧
    (l.Schema = some s → lookupChild l.children (ChildKey.field field) = none →
      (asObj l.OldValue = none ∨ asObj l.Value = none) →
      CorrelatedObject.Key (some l) field = (none, some l)) ∧
    (l.Schema = some s → lookupChild l.children (ChildKey.field field) = none →
      ∀ om nm : List (String × JSONValue), asObj l.OldValue = some om → asObj l.Value = some nm →
      (lookupField om field = none ∨ lookupField nm field = none) →
      CorrelatedObject.Key (some l) field = (none, some l)) ∧
    (l.Schema = some s → lookupChild l.children (ChildKey.field field) = none →
      ∀ om nm : List (String × JSONValue), asObj l.OldValue = some om → asObj l.Value = some nm →
      ∀ ov nv : JSONValue, lookupField om field = some ov → lookupField nm field = some nv →
      (∀ p : Schema, lookupProp s.properties field = some p →
        CorrelatedObject.Key (some l) field =
          (some (NewCorrelatedObject nv ov (some p)),
           some (l.setChildren (l.children ++ [(ChildKey.field field, NewCorrelatedObject nv ov (some p))])))) ∧
      (lookupProp s.properties field = none →
        (∀ a : Schema, s.additionalProperties = some a →
          CorrelatedObject.Key (some l) field =
            (some (NewCorrelatedObject nv ov (some a)),
             some (l.setChildren (l.children ++ [(ChildKey.field field, NewCorrelatedObject nv ov (some a))])))) ∧
        (s.additionalProperties = none →
          CorrelatedObject.Key (some l) field = (none, some l)))) := by
  obtain ⟨o, v, sch, cmp, ml, cs⟩ := l
  obtain ⟨props, addP, its, lt, mks⟩ := s
  refine ⟨rfl, ?_, ?_, ?_, ?_, ?_⟩
  · intro hs
    simp only [CorrelatedObject.Schema] at hs
    subst hs
    rfl
  · intro hs c hc
    simp only [CorrelatedObject.Schema] at hs
    simp only [CorrelatedObject.children] at hc
    subst hs
    simp [CorrelatedObject.Key, hc]
  · intro hs hc hshape
    simp only [CorrelatedObject.Schema] at hs
    simp only [CorrelatedObject.children] at hc
    simp only [CorrelatedObject.OldValue, CorrelatedObject.Value] at hshape
    subst hs
    cases hshape with
    | inl h => simp [CorrelatedObject.Key, hc, h]
    | inr h =>
      cases ho : asObj o with
      | none => simp [CorrelatedObject.Key, hc, ho]
      | some om => simp [CorrelatedObject.Key, hc, ho, h]
  · intro hs hc om nm hom hnm hmiss
    simp only [CorrelatedObject.Schema] at hs
    simp only [CorrelatedObject.children] at hc
    simp only [CorrelatedObject.OldValue] at hom
    simp only [CorrelatedObject.Value] at hnm
    subst hs
    cases hmiss with
    | inl h => simp [CorrelatedObject.Key, hc, hom, hnm, h]
    | inr h =>
      cases hof : lookupField om field with
      | none => simp [CorrelatedObject.Key, hc, hom, hnm, hof]
      | some ov => simp [CorrelatedObject.Key, hc, hom, hnm, hof, h]
  · intro hs hc om nm hom hnm ov nv hov hnv
    simp only [CorrelatedObject.Schema] at hs
    simp only [CorrelatedObject.children] at hc
    simp only [CorrelatedObject.OldValue] at hom
    simp only [CorrelatedObject.Value] at hnm
    subst hs
    refine ⟨?_, ?_⟩
    · intro p hp
      simp only [Schema.properties] at hp
      simp [CorrelatedObject.Key, hc, hom, hnm, hov, hnv, hp]
    · intro hnp
      simp only [Schema.properties] at hnp
      refine ⟨?_, ?_⟩
      · intro a ha
        simp only [Schema.additionalProperties] at ha
        simp [CorrelatedObject.Key, hc, hom, hnm, hov, hnv, hnp, ha]
      · intro hna
        simp only [Schema.additionalProperties] at hna
        simp [CorrelatedObject.Key, hc, hom, hnm, hov, hnv, hnp, hna]

/-- Property schema used by navigation witnesses. -/
def wPropSchema : Schema :=
  Schema.mk [] none none none []

/-- Object schema declaring the witness field. -/
def wObjSchema : Schema :=
  Schema.mk [(wField, wPropSchema)] none none none []

/-- Map-valued node with the witness field present in both values. -/
def wMapNode : CorrelatedObject :=
  CorrelatedObject.mk (JSONValue.obj [(wField, JSONValue.num 1)]) (JSONValue.obj [(wField, JSONValue.num 2)]) (some wObjSchema) none none []

theorem claim_C6_witness :
    wMapNode.Schema = some wObjSchema ∧
    lookupChild wMapNode.children (ChildKey.field wField) = none ∧
    lookupProp wObjSchema.properties wField = some wPropSchema ∧
    CorrelatedObject.Key (some wMapNode) wField =
      (some (NewCorrelatedObject (JSONValue.num 2) (JSONValue.num 1) (some wPropSchema)),
       some (wMapNode.setChildren (wMapNode.children ++ [(ChildKey.field wField, NewCorrelatedObject (JSONValue.num 2) (JSONValue.num 1) (some wPropSchema))]))) :=
  ⟨rfl, rfl, by simp [wObjSchema, lookupProp],
   ((claim_C6 wMapNode wField wObjSchema).2.2.2.2.2 rfl rfl
      [(wField, JSONValue.num 1)] [(wField, JSONValue.num 2)] rfl rfl
      (JSONValue.num 1) (JSONValue.num 2) (by simp [lookupField]) (by simp [lookupField])).1
      wPropSchema (by simp [wObjSchema, lookupProp])⟩

/-- Item schema used by list navigation witnesses. -/
def wItemSchema : Schema :=
  Schema.mk [] none none none []

/-- List schema with an items schema and no declared list type. -/
def wListSchema : Schema :=
  Schema.mk [] none (some wItemSchema) none []

/-- Node whose old list has a null element at index zero, positionally
aligned with a non-null new element. -/
def cexNullElemNode : CorrelatedObject :=
  CorrelatedObject.mk (JSONValue.arr [JSONValue.null]) (JSONValue.arr [JSONValue.num 1]) (some wListSchema) none none []

/-- Counterexample to claim C2 as stated: index zero is within the bounds
of both lists and no list type is declared, so the claim requires a child
node whose correlated old value is the old element at index zero; the
code instead returns null, because the null old element cannot be told
apart from a failed correlation. -/
theorem claim_C2_counterexample :
    cexNullElemNode.OldValue = JSONValue.arr [JSONValue.null] ∧
    cexNullElemNode.Value = JSONValue.arr [JSONValue.num 1] ∧
    cexNullElemNode.Schema = some wListSchema ∧
    wListSchema.listType = none ∧
    wListSchema.items = some wItemSchema ∧
    CorrelatedObject.Index (some cexNullElemNode) 0 = Exec.ok (none, some cexNullElemNode) :=
  ⟨rfl, rfl, rfl, rfl, rfl, rfl⟩

/-- Claim C2 (amended): for a node whose schema declares no list merge
strategy, with an items schema and index within the new list bounds and no
memoized child, Index returns a child whose correlated old value is
exactly the old element at that index precisely when the index is within
the old list bounds AND that old element is not null; it returns null when
the old value is not a list, when the index is not below the new list
length, when the index is not below the old list length, and also when the
old element at the index is null (the null old element is
indistinguishable from a failed correlation). -/
theorem claim_C2 (l : CorrelatedObject) (i : Int) (s : Schema) :
    (l.Schema = some s → lookupChild l.children (ChildKey.idx i) = none →
      asArr l.OldValue = none →
      CorrelatedObject.Index (some l) i = Exec.ok (none, some l)) ∧
    (l.Schema = some s → lookupChild l.children (ChildKey.idx i) = none →
      ∀ newL : List JSONValue, l.Value = JSONValue.arr newL → (newL.length : Int) ≤ i →
      CorrelatedObject.Index (some l) i = Exec.ok (none, some l)) ∧
    (l.Schema = some s → s.listType = none → lookupChild l.children (ChildKey.idx i) = none →
      ∀ oldL newL : List JSONValue, l.OldValue = JSONValue.arr oldL → l.Value = JSONValue.arr newL →
      0 ≤ i → i < (newL.length : Int) →
      (((oldL.length : Int) ≤ i → CorrelatedObject.Index (some l) i = Exec.ok (none, some l)) ∧
       (i < (oldL.length : Int) → (oldL.getD i.toNat JSONValue.null).isNull = true →
         CorrelatedObject.Index (some l) i = Exec.ok (none, some l)) ∧
       (∀ itemS : Schema, s.items = some itemS →
         i < (oldL.length : Int) → (oldL.getD i.toNat JSONValue.null).isNull = false →
         CorrelatedObject.Index (some l) i =
           Exec.ok (some (NewCorrelatedObject (newL.getD i.toNat JSONValue.null) (oldL.getD i.toNat JSONValue.null) (some itemS)),
                    some (l.setChildren (l.children ++ [(ChildKey.idx i, NewCorrelatedObject (newL.getD i.toNat JSONValue.null) (oldL.getD i.toNat JSONValue.null) (some itemS))])))))) := by
  obtain ⟨o, v, sch, cmp, ml, cs⟩ := l
  obtain ⟨props, addP, its, lt, mks⟩ := s
  refine ⟨?_, ?_, ?_⟩
  · intro hs hc ho
    simp only [CorrelatedObject.Schema] at hs
    simp only [CorrelatedObject.children] at hc
    simp only [CorrelatedObject.OldValue] at ho
    subst hs
    cases hv : asArr v with
    | none => simp [CorrelatedObject.Index, hc, hv]
    | some newL =>
      by_cases hb : (newL.length : Int) ≤ i
      · simp [CorrelatedObject.Index, hc, hv, hb]
      · simp [CorrelatedObject.Index, hc, hv, hb, correlateOldValueForChildAtNewIndex, ho, JSONValue.isNull]
  · intro hs hc newL hv hb
    simp only [CorrelatedObject.Schema] at hs
    simp only [CorrelatedObject.Value] at hv
    simp only [CorrelatedObject.children] at hc
    subst hs
    subst hv
    simp [CorrelatedObject.Index, hc, asArr, hb]
  · intro hs hlt hc oldL newL ho hv h0 hb
    simp only [CorrelatedObject.Schema] at hs
    simp only [Schema.listType] at hlt
    simp only [CorrelatedObject.children] at hc
    simp only [CorrelatedObject.OldValue] at ho
    simp only [CorrelatedObject.Value] at hv
    subst hs
    subst hlt
    subst ho
    subst hv
    have hnb : ¬((newL.length : Int) ≤ i) := by omega
    refine ⟨?_, ?_, ?_⟩
    · intro hob
      simp [CorrelatedObject.Index, hc, asArr, hnb, correlateOldValueForChildAtNewIndex,
            listTypeMap, listTypeSet, listTypeAtomic, noListType, hob, JSONValue.isNull]
    · intro hob hnull
      have hnob : ¬((oldL.length : Int) ≤ i) := by omega
      have hn : i.toNat < oldL.length := by omega
      rw [List.getD_eq_getElem _ _ hn] at hnull
      simp [CorrelatedObject.Index, hc, asArr, hnb, correlateOldValueForChildAtNewIndex,
            listTypeMap, listTypeSet, listTypeAtomic, noListType, hnob, listGetInt,
            h0, hob, hnull]
    · intro itemS hits hob hnn
      simp only [Schema.items] at hits
      subst hits
      have hnob : ¬((oldL.length : Int) ≤ i) := by omega
      have hn : i.toNat < oldL.length := by omega
      have hn2 : i.toNat < newL.length := by omega
      rw [List.getD_eq_getElem _ _ hn] at hnn
      simp [CorrelatedObject.Index, hc, asArr, hnb, correlateOldValueForChildAtNewIndex,
            listTypeMap, listTypeSet, listTypeAtomic, noListType, hnob, listGetInt,
            h0, hob, hb, hnn, List.getD_eq_getElem _ _ hn, List.getD_eq_getElem _ _ hn2,
            List.getElem?_eq_getElem hn2]

/-- Node with positionally aligned non-null list elements. -/
def wPosListNode : CorrelatedObject :=
  CorrelatedObject.mk (JSONValue.arr [JSONValue.num 7]) (JSONValue.arr [JSONValue.num 8]) (some wListSchema) none none []

theorem claim_C2_witness :
    wPosListNode.Schema = some wListSchema ∧
    wListSchema.listType = none ∧
    wListSchema.items = some wItemSchema ∧
    CorrelatedObject.Index (some wPosListNode) 0 =
      Exec.ok (some (NewCorrelatedObject (JSONValue.num 8) (JSONValue.num 7) (some wItemSchema)),
               some (wPosListNode.setChildren (wPosListNode.children ++ [(ChildKey.idx 0, NewCorrelatedObject (JSONValue.num 8) (JSONValue.num 7) (some wItemSchema))]))) :=
  ⟨rfl, rfl, rfl, by
    have h := ((claim_C2 wPosListNode 0 wListSchema).2.2 rfl rfl rfl
      [JSONValue.num 7] [JSONValue.num 8] rfl rfl (by omega) (by simp)).2.2
      wItemSchema rfl (by simp) (by simp [JSONValue.isNull])
    simpa using h⟩

/-- Claim C9: null values are treated asymmetrically at the two navigation
entry points. Key correlates a field whose value is null in both maps —
presence in both suffices — and the resulting child compares equal; Index
never correlates a list element whose resolved old counterpart is null,
because the nil returned by correlateOldValueForChildAtNewIndex is the
same value, so such an element receives the engine default validator even
when it is positionally aligned and within both lists bounds. -/
theorem claim_C9 (l : CorrelatedObject) (s : Schema) (field : String) (i : Int) :
    (l.Schema = some s → lookupChild l.children (ChildKey.field field) = none →
      ∀ om nm : List (String × JSONValue), asObj l.OldValue = some om → asObj l.Value = some nm →
      lookupField om field = some JSONValue.null → lookupField nm field = some JSONValue.null →
      ∀ p : Schema, lookupProp s.properties field = some p →
      (CorrelatedObject.Key (some l) field).1 = some (NewCorrelatedObject JSONValue.null JSONValue.null (some p)) ∧
      (CachedDeepEqual (NewCorrelatedObject JSONValue.null JSONValue.null (some p))).1 = true) ∧
    (l.Schema = some s → s.listType = none → lookupChild l.children (ChildKey.idx i) = none →
      ∀ oldL newL : List JSONValue, l.OldValue = JSONValue.arr oldL → l.Value = JSONValue.arr newL →
      0 ≤ i → i < (newL.length : Int) → i < (oldL.length : Int) →
      (oldL.getD i.toNat JSONValue.null).isNull = true →
      CorrelatedObject.Index (some l) i = Exec.ok (none, some l) ∧
      (∀ (rv : RatchetingValueValidator), rv.correlation = l →
        ∀ (schema2 : Option Schema) (rootSchema : RootObj) (root : String) (formats : Registry) (options : List ValidateOption),
        rv.SubIndexValidator i schema2 rootSchema root formats options =
          Exec.ok (ValueValidator.schemaValidator schema2 rootSchema root formats options,
                   { rv with correlation := l }))) := by
  refine ⟨?_, ?_⟩
  · intro hs hc om nm hom hnm hof hnf p hp
    obtain ⟨o, v, sch, cmp, ml, cs⟩ := l
    obtain ⟨props, addP, its, lt, mks⟩ := s
    simp only [CorrelatedObject.Schema] at hs
    simp only [CorrelatedObject.children] at hc
    simp only [CorrelatedObject.OldValue] at hom
    simp only [CorrelatedObject.Value] at hnm
    simp only [Schema.properties] at hp
    subst hs
    constructor
    · simp [CorrelatedObject.Key, hc, hom, hnm, hof, hnf, hp]
    · simp [CachedDeepEqual, cdeCompute, JSONValue.isNull]
  · intro hs hlt hc oldL newL ho hv h0 hb hob hnull
    obtain ⟨o, v, sch, cmp, ml, cs⟩ := l
    obtain ⟨props, addP, its, lt, mks⟩ := s
    simp only [CorrelatedObject.Schema] at hs
    simp only [Schema.listType] at hlt
    simp only [CorrelatedObject.children] at hc
    simp only [CorrelatedObject.OldValue] at ho
    simp only [CorrelatedObject.Value] at hv
    subst hs
    subst hlt
    subst ho
    subst hv
    have hnb : ¬((newL.length : Int) ≤ i) := by omega
    have hnob : ¬((oldL.length : Int) ≤ i) := by omega
    have hn : i.toNat < oldL.length := by omega
    rw [List.getD_eq_getElem _ _ hn] at hnull
    have hidx : CorrelatedObject.Index (some (CorrelatedObject.mk (JSONValue.arr oldL) (JSONValue.arr newL) (some (Schema.mk props addP its none mks)) cmp ml cs)) i =
        Exec.ok (none, some (CorrelatedObject.mk (JSONValue.arr oldL) (JSONValue.arr newL) (some (Schema.mk props addP its none mks)) cmp ml cs)) := by
      simp [CorrelatedObject.Index, hc, asArr, hnb, correlateOldValueForChildAtNewIndex,
            listTypeMap, listTypeSet, listTypeAtomic, noListType, hnob, listGetInt,
            h0, hob, hnull]
    refine ⟨hidx, ?_⟩
    intro rv hrv schema2 rootSchema root formats options
    obtain ⟨rargs, rcorr⟩ := rv
    simp only at hrv
    subst hrv
    simp [RatchetingValueValidator.SubIndexValidator, hidx]

/-- Map node whose witness field is null in both the old and new maps. -/
def wNullFieldNode : CorrelatedObject :=
  CorrelatedObject.mk (JSONValue.obj [(wField, JSONValue.null)]) (JSONValue.obj [(wField, JSONValue.null)]) (some wObjSchema) none none []

theorem claim_C9_witness :
    lookupField [(wField, JSONValue.null)] wField = some JSONValue.null ∧
    ((CorrelatedObject.Key (some wNullFieldNode) wField).1 = some (NewCorrelatedObject JSONValue.null JSONValue.null (some wPropSchema)) ∧
     (CachedDeepEqual (NewCorrelatedObject JSONValue.null JSONValue.null (some wPropSchema))).1 = true) :=
  ⟨by simp [lookupField],
   (claim_C9 wNullFieldNode wObjSchema wField 0).1 rfl rfl
     [(wField, JSONValue.null)] [(wField, JSONValue.null)] rfl rfl
     (by simp [lookupField]) (by simp [lookupField])
     wPropSchema (by simp [wObjSchema, lookupProp])⟩

/-- Set-type list schema used by the C3 counterexample and witness. -/
def wSetSchema : Schema :=
  Schema.mk [] none (some wItemSchema) (some listTypeSet) []

/-- Set-type list node with identical non-empty old and new lists and no
visited children. -/
def cexSetNode : CorrelatedObject :=
  CorrelatedObject.mk (JSONValue.arr [JSONValue.num 1]) (JSONValue.arr [JSONValue.num 1]) (some wSetSchema) none none []

/-- Counterexample to claim C3 as stated: on a set-type list node with no
visited children, whole-node equality is NOT computed via the generic
structural fallback. The generic comparison of the identical lists is
true, yet CachedDeepEqual returns false, because the populated-children
count (zero) differs from the non-zero list length and the list branch
never falls through to the generic comparison. -/
theorem claim_C3_counterexample :
    cexSetNode.Schema = some wSetSchema ∧
    wSetSchema.listType = some listTypeSet ∧
    cexSetNode.children = [] ∧
    deepEqual cexSetNode.OldValue cexSetNode.Value = true ∧
    (CachedDeepEqual cexSetNode).1 = false :=
  ⟨rfl, rfl, rfl,
   by simp [cexSetNode, deepEqual, deepEqualList],
   by simp [cexSetNode, CachedDeepEqual, cdeCompute, JSONValue.isNull, asArr]⟩

/-- Claim C3 (amended): for a set-type or atomic-type list node, Index
always returns null, so no per-element ratcheting validator is ever
constructed (the sub-index hook hands back the engine default validator);
but whole-node equality at such a node never uses the generic structural
fallback: with no visited children and both values lists it holds exactly
when both lists are empty, so a failure reported against a non-empty
set-type or atomic-type list is never forgiven at that node. -/
theorem claim_C3 (l : CorrelatedObject) (s : Schema) (i : Int) :
    (l.Schema = some s → (s.listType = some listTypeSet ∨ s.listType = some listTypeAtomic) →
      lookupChild l.children (ChildKey.idx i) = none →
      CorrelatedObject.Index (some l) i = Exec.ok (none, some l) ∧
      (∀ (rv : RatchetingValueValidator), rv.correlation = l →
        ∀ (schema2 : Option Schema) (rootSchema : RootObj) (root : String) (formats : Registry) (options : List ValidateOption),
        rv.SubIndexValidator i schema2 rootSchema root formats options =
          Exec.ok (ValueValidator.schemaValidator schema2 rootSchema root formats options,
                   { rv with correlation := l }))) ∧
    (l.Schema = some s → (s.listType = some listTypeSet ∨ s.listType = some listTypeAtomic) →
      l.children = [] → l.comparisonResult = none →
      ∀ oldL newL : List JSONValue, l.OldValue = JSONValue.arr oldL → l.Value = JSONValue.arr newL →
      (CachedDeepEqual l).1 = (oldL.isEmpty && newL.isEmpty)) := by
  constructor
  · intro hs hlt hc
    obtain ⟨o, v, sch, cmp, ml, cs⟩ := l
    obtain ⟨props, addP, its, lt, mks⟩ := s
    simp only [CorrelatedObject.Schema] at hs
    simp only [Schema.listType] at hlt
    simp only [CorrelatedObject.children] at hc
    subst hs
    have hmain : CorrelatedObject.Index (some (CorrelatedObject.mk o v (some (Schema.mk props addP its lt mks)) cmp ml cs)) i =
        Exec.ok (none, some (CorrelatedObject.mk o v (some (Schema.mk props addP its lt mks)) cmp ml cs)) := by
      cases hv : asArr v with
      | none => simp [CorrelatedObject.Index, hc, hv]
      | some newL =>
        by_cases hb : (newL.length : Int) ≤ i
        · simp [CorrelatedObject.Index, hc, hv, hb]
        · cases ha : asArr o with
          | none =>
            simp [CorrelatedObject.Index, hc, hv, hb, correlateOldValueForChildAtNewIndex, ha, JSONValue.isNull]
          | some oldL =>
            cases hlt with
            | inl h =>
              subst h
              simp [CorrelatedObject.Index, hc, hv, hb, correlateOldValueForChildAtNewIndex, ha,
                    listTypeMap, listTypeSet, listTypeAtomic, noListType, JSONValue.isNull]
            | inr h =>
              subst h
              simp [CorrelatedObject.Index, hc, hv, hb, correlateOldValueForChildAtNewIndex, ha,
                    listTypeMap, listTypeSet, listTypeAtomic, noListType, JSONValue.isNull]
    refine ⟨hmain, ?_⟩
    intro rv hrv schema2 rootSchema root formats options
    obtain ⟨rargs, rcorr⟩ := rv
    simp only at hrv
    subst hrv
    simp [RatchetingValueValidator.SubIndexValidator, hmain]
  · intro hs hlt hch hcmp oldL newL ho hv
    obtain ⟨o, v, sch, cmp, ml, cs⟩ := l
    simp only [CorrelatedObject.Schema] at hs
    simp only [CorrelatedObject.children] at hch
    simp only [CorrelatedObject.comparisonResult] at hcmp
    simp only [CorrelatedObject.OldValue] at ho
    simp only [CorrelatedObject.Value] at hv
    subst hs
    subst hch
    subst hcmp
    subst ho
    subst hv
    cases oldL with
    | nil =>
      cases newL with
      | nil => simp [CachedDeepEqual, cdeCompute, JSONValue.isNull, asArr, cdeListLoop]
      | cons x xs => simp [CachedDeepEqual, cdeCompute, JSONValue.isNull, asArr]
    | cons y ys =>
      by_cases hlen : (y :: ys).length = newL.length
      · have hne : ¬(0 = newL.length) := by
          simp only [List.length_cons] at hlen
          omega
        simp [CachedDeepEqual, cdeCompute, JSONValue.isNull, asArr, hlen, hne]
      · simp [CachedDeepEqual, cdeCompute, JSONValue.isNull, asArr, hlen]

theorem claim_C3_witness :
    cexSetNode.Schema = some wSetSchema ∧
    (wSetSchema.listType = some listTypeSet ∨ wSetSchema.listType = some listTypeAtomic) ∧
    CorrelatedObject.Index (some cexSetNode) 3 = Exec.ok (none, some cexSetNode) ∧
    (CachedDeepEqual cexSetNode).1 = (JSONValue.num 1 :: List.nil).isEmpty :=
  ⟨rfl, Or.inl rfl,
   ((claim_C3 cexSetNode wSetSchema 3).1 rfl (Or.inl rfl) rfl).1,
   by
    have h := (claim_C3 cexSetNode wSetSchema 3).2 rfl (Or.inl rfl) rfl rfl
      [JSONValue.num 1] [JSONValue.num 1] rfl rfl
    simpa using h⟩

theorem listGetInt_ok (xs : List JSONValue) (i : Int) (h0 : 0 ≤ i) (hlt : i < (xs.length : Int)) :
    listGetInt xs i = Exec.ok (xs.getD i.toNat JSONValue.null) := by
  unfold listGetInt
  rw [if_pos ⟨h0, hlt⟩]

theorem listGetInt_fault_of_neg (xs : List JSONValue) (i : Int) (h : i < 0) :
    listGetInt xs i = Exec.fault := by
  unfold listGetInt
  rw [if_neg (by omega)]

theorem correlate_no_fault (r : CorrelatedObject) (i : Int) (s : Schema) (h0 : 0 ≤ i) (hs : r.Schema = some s) :
    correlateOldValueForChildAtNewIndex r i ≠ Exec.fault := by
  obtain ⟨o, v, sch, cmp, ml, cs⟩ := r
  obtain ⟨props, addP, its, lt, mks⟩ := s
  simp only [CorrelatedObject.Schema] at hs
  subst hs
  cases ha : asArr o with
  | none => simp [correlateOldValueForChildAtNewIndex, ha]
  | some oldL =>
    cases hv : asArr v with
    | none => simp [correlateOldValueForChildAtNewIndex, ha, hv]
    | some newL =>
      by_cases hb : (newL.length : Int) ≤ i
      · simp [correlateOldValueForChildAtNewIndex, ha, hv, hb]
      · by_cases hm : lt.getD noListType = listTypeMap
        · cases ml with
          | some mlv =>
            simp [correlateOldValueForChildAtNewIndex, ha, hv, hb, hm,
                  listGetInt_ok newL i h0 (by omega)]
          | none =>
            simp [correlateOldValueForChildAtNewIndex, ha, hv, hb, hm,
                  listGetInt_ok newL i h0 (by omega)]
        · by_cases hset : lt.getD noListType = listTypeSet
          · simp [correlateOldValueForChildAtNewIndex, ha, hv, hb, hm, hset,
                  listTypeMap, listTypeSet, listTypeAtomic]
          · by_cases hat : lt.getD noListType = listTypeAtomic
            · simp [correlateOldValueForChildAtNewIndex, ha, hv, hb, hm, hset, hat,
                    listTypeMap, listTypeSet, listTypeAtomic]
            · by_cases hob : (oldL.length : Int) ≤ i
              · simp [correlateOldValueForChildAtNewIndex, ha, hv, hb, hm, hset, hat, hob]
              · simp [correlateOldValueForChildAtNewIndex, ha, hv, hb, hm, hset, hat, hob,
                      listGetInt_ok oldL i h0 (by omega)]

/-- Counterexample to claim C7 as stated: a negative index is out of
bounds, and the claim requires the navigation to return null rather than
fault; but on a node whose old and new values are lists under the default
positional strategy the Go code indexes the old slice with the negative
index and panics. -/
theorem claim_C7_counterexample :
    wPosListNode.OldValue = JSONValue.arr [JSONValue.num 7] ∧
    wPosListNode.Value = JSONValue.arr [JSONValue.num 8] ∧
    CorrelatedObject.Index (some wPosListNode) (-1) = Exec.fault :=
  ⟨rfl, rfl, rfl⟩

/-- Claim C7 (amended): Key is total and never faults, returning null on a
null receiver, a missing schema, non-map shapes or an absent field; Index
returns null on a null receiver, a missing schema, a non-list new value or
an index at or beyond the new list length, and never faults for a
non-negative index; a negative index, however, can fault (Go slice
indexing) when both values are lists under the positional or map
correlation strategies, so totality holds only for non-negative indices. -/
theorem claim_C7 (l : CorrelatedObject) (field : String) (i : Int) :
    CorrelatedObject.Key none field = (none, none) ∧
    (∀ i2 : Int, CorrelatedObject.Index none i2 = Exec.ok (none, none)) ∧
    (l.Schema = none →
      CorrelatedObject.Key (some l) field = (none, some l) ∧
      CorrelatedObject.Index (some l) i = Exec.ok (none, some l)) ∧
    (l.Schema ≠ none → lookupChild l.children (ChildKey.field field) = none →
      (asObj l.OldValue = none ∨ asObj l.Value = none) →
      CorrelatedObject.Key (some l) field = (none, some l)) ∧
    (l.Schema ≠ none → lookupChild l.children (ChildKey.field field) = none →
      ∀ om nm : List (String × JSONValue), asObj l.OldValue = some om → asObj l.Value = some nm →
      (lookupField om field = none ∨ lookupField nm field = none) →
      CorrelatedObject.Key (some l) field = (none, some l)) ∧
    (l.Schema ≠ none → lookupChild l.children (ChildKey.idx i) = none → asArr l.Value = none →
      CorrelatedObject.Index (some l) i = Exec.ok (none, some l)) ∧
    (l.Schema ≠ none → lookupChild l.children (ChildKey.idx i) = none →
      ∀ newL : List JSONValue, l.Value = JSONValue.arr newL → (newL.length : Int) ≤ i →
      CorrelatedObject.Index (some l) i = Exec.ok (none, some l)) ∧
    (0 ≤ i → CorrelatedObject.Index (some l) i ≠ Exec.fault) := by
  obtain ⟨o, v, sch, cmp, ml, cs⟩ := l
  refine ⟨rfl, fun i2 => rfl, ?_, ?_, ?_, ?_, ?_, ?_⟩
  · intro hs
    simp only [CorrelatedObject.Schema] at hs
    subst hs
    exact ⟨rfl, rfl⟩
  · intro hs hc hshape
    simp only [CorrelatedObject.Schema] at hs
    simp only [CorrelatedObject.children] at hc
    simp only [CorrelatedObject.OldValue, CorrelatedObject.Value] at hshape
    cases hsch : sch with
    | none => simp [hsch] at hs
    | some s =>
      cases hshape with
      | inl h => simp [CorrelatedObject.Key, hc, h]
      | inr h =>
        cases ho2 : asObj o with
        | none => simp [CorrelatedObject.Key, hc, ho2]
        | some om => simp [CorrelatedObject.Key, hc, ho2, h]
  · intro hs hc om nm hom hnm hmiss
    simp only [CorrelatedObject.Schema] at hs
    simp only [CorrelatedObject.children] at hc
    simp only [CorrelatedObject.OldValue] at hom
    simp only [CorrelatedObject.Value] at hnm
    cases hsch : sch with
    | none => simp [hsch] at hs
    | some s =>
      cases hmiss with
      | inl h => simp [CorrelatedObject.Key, hc, hom, hnm, h]
      | inr h =>
        cases hof : lookupField om field with
        | none => simp [CorrelatedObject.Key, hc, hom, hnm, hof]
        | some ov => simp [CorrelatedObject.Key, hc, hom, hnm, hof, h]
  · intro hs hc hv
    simp only [CorrelatedObject.Schema] at hs
    simp only [CorrelatedObject.children] at hc
    simp only [CorrelatedObject.Value] at hv
    cases hsch : sch with
    | none => simp [hsch] at hs
    | some s => simp [CorrelatedObject.Index, hc, hv]
  · intro hs hc newL hv hb
    simp only [CorrelatedObject.Schema] at hs
    simp only [CorrelatedObject.children] at hc
    simp only [CorrelatedObject.Value] at hv
    subst hv
    cases hsch : sch with
    | none => simp [hsch] at hs
    | some s => simp [CorrelatedObject.Index, hc, asArr, hb]
  · intro h0
    cases hsch : sch with
    | none =>
      subst hsch
      simp [CorrelatedObject.Index]
    | some s =>
      subst hsch
      obtain ⟨props, addP, its, lt, mks⟩ := s
      cases hmemo : lookupChild cs (ChildKey.idx i) with
      | some c => simp [CorrelatedObject.Index, hmemo]
      | none =>
        cases hv : asArr v with
        | none => simp [CorrelatedObject.Index, hmemo, hv]
        | some newL =>
          by_cases hb : (newL.length : Int) ≤ i
          · simp [CorrelatedObject.Index, hmemo, hv, hb]
          · cases hcor : correlateOldValueForChildAtNewIndex (CorrelatedObject.mk o v (some (Schema.mk props addP its lt mks)) cmp ml cs) i with
            | fault =>
              exact absurd hcor (correlate_no_fault _ i (Schema.mk props addP its lt mks) h0 rfl)
            | ok p =>
              obtain ⟨oldV, l2⟩ := p
              by_cases hnull : oldV.isNull = true
              · simp [CorrelatedObject.Index, hmemo, hv, hb, hcor, hnull]
              · cases its with
                | none => simp [CorrelatedObject.Index, hmemo, hv, hb, hcor, hnull]
                | some itemS =>
                  simp [CorrelatedObject.Index, hmemo, hv, hb, hcor, hnull,
                        listGetInt_ok newL i h0 (by omega)]

theorem claim_C7_witness :
    (0 : Int) ≤ 0 ∧ CorrelatedObject.Index (some wPosListNode) 0 ≠ Exec.fault :=
  ⟨by omega, (claim_C7 wPosListNode wField 0).2.2.2.2.2.2.2 (by omega)⟩

theorem children_setChildren (r : CorrelatedObject) (cs2 : List (ChildKey × CorrelatedObject)) : (r.setChildren cs2).children = cs2 := by
  cases r
  rfl

theorem comparisonResult_setChildren (r : CorrelatedObject) (cs2 : List (ChildKey × CorrelatedObject)) : (r.setChildren cs2).comparisonResult = r.comparisonResult := by
  cases r
  rfl

theorem mapList_setChildren (r : CorrelatedObject) (cs2 : List (ChildKey × CorrelatedObject)) : (r.setChildren cs2).mapList = r.mapList := by
  cases r
  rfl

theorem children_setMapList (r : CorrelatedObject) (m : Option MapList) : (r.setMapList m).children = r.children := by
  cases r
  rfl

theorem comparisonResult_setMapList (r : CorrelatedObject) (m : Option MapList) : (r.setMapList m).comparisonResult = r.comparisonResult := by
  cases r
  rfl

attribute [simp] children_setChildren comparisonResult_setChildren mapList_setChildren children_setMapList comparisonResult_setMapList

theorem correlate_state (r : CorrelatedObject) (i : Int) (val : JSONValue) (r2 : CorrelatedObject)
    (h : correlateOldValueForChildAtNewIndex r i = Exec.ok (val, r2)) :
    r2.children = r.children ∧ r2.comparisonResult = r.comparisonResult ∧
    (r2.mapList = r.mapList ∨ r.mapList = none) := by
  obtain ⟨o, v, sch, cmp, ml, cs⟩ := r
  cases ha : asArr o with
  | none =>
    simp [correlateOldValueForChildAtNewIndex, ha] at h
    obtain ⟨h1, h2⟩ := h
    subst h2
    simp
  | some oldL =>
    cases hv : asArr v with
    | none =>
      simp [correlateOldValueForChildAtNewIndex, ha, hv] at h
      obtain ⟨h1, h2⟩ := h
      subst h2
      simp
    | some newL =>
      by_cases hb : (newL.length : Int) ≤ i
      · simp [correlateOldValueForChildAtNewIndex, ha, hv, hb] at h
        obtain ⟨h1, h2⟩ := h
        subst h2
        simp
      · cases sch with
        | none => simp [correlateOldValueForChildAtNewIndex, ha, hv, hb] at h
        | some s =>
          obtain ⟨props, addP, its, lt, mks⟩ := s
          by_cases hm : lt.getD noListType = listTypeMap
          · cases hg : listGetInt newL i with
            | fault => simp [correlateOldValueForChildAtNewIndex, ha, hv, hb, hm, hg] at h
            | ok cur =>
              cases ml with
              | some mlv =>
                simp [correlateOldValueForChildAtNewIndex, ha, hv, hb, hm, hg] at h
                obtain ⟨h1, h2⟩ := h
                subst h2
                simp
              | none =>
                simp [correlateOldValueForChildAtNewIndex, ha, hv, hb, hm, hg] at h
                obtain ⟨h1, h2⟩ := h
                subst h2
                simp [CorrelatedObject.setMapList]
          · by_cases hset : lt.getD noListType = listTypeSet
            · simp [correlateOldValueForChildAtNewIndex, ha, hv, hb, hm, hset,
                    listTypeMap, listTypeSet, listTypeAtomic] at h
              obtain ⟨h1, h2⟩ := h
              subst h2
              simp
            · by_cases hat : lt.getD noListType = listTypeAtomic
              · simp [correlateOldValueForChildAtNewIndex, ha, hv, hb, hm, hset, hat,
                      listTypeMap, listTypeSet, listTypeAtomic] at h
                obtain ⟨h1, h2⟩ := h
                subst h2
                simp
              · by_cases hob : (oldL.length : Int) ≤ i
                · simp [correlateOldValueForChildAtNewIndex, ha, hv, hb, hm, hset, hat, hob] at h
                  obtain ⟨h1, h2⟩ := h
                  subst h2
                  simp
                · cases hg : listGetInt oldL i with
                  | fault => simp [correlateOldValueForChildAtNewIndex, ha, hv, hb, hm, hset, hat, hob, hg] at h
                  | ok cur =>
                    simp [correlateOldValueForChildAtNewIndex, ha, hv, hb, hm, hset, hat, hob, hg] at h
                    obtain ⟨h1, h2⟩ := h
                    subst h2
                    simp

theorem Key_cases (l : CorrelatedObject) (field : String) :
    CorrelatedObject.Key (some l) field = (none, some l) ∨
    (∃ c : CorrelatedObject, lookupChild l.children (ChildKey.field field) = some c ∧
      CorrelatedObject.Key (some l) field = (some c, some l)) ∨
    (∃ c : CorrelatedObject, lookupChild l.children (ChildKey.field field) = none ∧
      CorrelatedObject.Key (some l) field = (some c, some (l.setChildren (l.children ++ [(ChildKey.field field, c)])))) := by
  obtain ⟨o, v, sch, cmp, ml, cs⟩ := l
  cases sch with
  | none => left; rfl
  | some s =>
    obtain ⟨props, addP, its, lt, mks⟩ := s
    cases hmemo : lookupChild cs (ChildKey.field field) with
    | some c =>
      right; left
      exact ⟨c, by simpa using hmemo, by simp [CorrelatedObject.Key, hmemo]⟩
    | none =>
      cases ho : asObj o with
      | none => left; simp [CorrelatedObject.Key, hmemo, ho]
      | some om =>
        cases hv : asObj v with
        | none => left; simp [CorrelatedObject.Key, hmemo, ho, hv]
        | some nm =>
          cases hof : lookupField om field with
          | none => left; simp [CorrelatedObject.Key, hmemo, ho, hv, hof]
          | some ov =>
            cases hnf : lookupField nm field with
            | none => left; simp [CorrelatedObject.Key, hmemo, ho, hv, hof, hnf]
            | some nv =>
              cases hp : lookupProp props field with
              | some p =>
                right; right
                refine ⟨NewCorrelatedObject nv ov (some p), by simpa using hmemo, ?_⟩
                simp [CorrelatedObject.Key, hmemo, ho, hv, hof, hnf, hp, CorrelatedObject.setChildren]
              | none =>
                cases addP with
                | some a =>
                  right; right
                  refine ⟨NewCorrelatedObject nv ov (some a), by simpa using hmemo, ?_⟩
                  simp [CorrelatedObject.Key, hmemo, ho, hv, hof, hnf, hp, CorrelatedObject.setChildren]
                | none => left; simp [CorrelatedObject.Key, hmemo, ho, hv, hof, hnf, hp]

theorem Index_cases (l : CorrelatedObject) (i : Int) :
    CorrelatedObject.Index (some l) i = Exec.fault ∨
    (∃ l2 : CorrelatedObject, CorrelatedObject.Index (some l) i = Exec.ok (none, some l2) ∧
      l2.children = l.children ∧ l2.comparisonResult = l.comparisonResult ∧
      (l2.mapList = l.mapList ∨ l.mapList = none)) ∨
    (∃ c : CorrelatedObject, lookupChild l.children (ChildKey.idx i) = some c ∧
      CorrelatedObject.Index (some l) i = Exec.ok (some c, some l)) ∨
    (∃ c l2 : CorrelatedObject, lookupChild l.children (ChildKey.idx i) = none ∧
      CorrelatedObject.Index (some l) i = Exec.ok (some c, some l2) ∧
      l2.children = l.children ++ [(ChildKey.idx i, c)] ∧
      l2.comparisonResult = l.comparisonResult ∧
      (l2.mapList = l.mapList ∨ l.mapList = none)) := by
  obtain ⟨o, v, sch, cmp, ml, cs⟩ := l
  cases sch with
  | none =>
    right; left
    exact ⟨_, rfl, rfl, rfl, Or.inl rfl⟩
  | some s =>
    obtain ⟨props, addP, its, lt, mks⟩ := s
    cases hmemo : lookupChild cs (ChildKey.idx i) with
    | some c =>
      right; right; left
      exact ⟨c, by simpa using hmemo, by simp [CorrelatedObject.Index, hmemo]⟩
    | none =>
      cases hv : asArr v with
      | none =>
        right; left
        exact ⟨_, by simp [CorrelatedObject.Index, hmemo, hv], rfl, rfl, Or.inl rfl⟩
      | some newL =>
        by_cases hb : (newL.length : Int) ≤ i
        · right; left
          exact ⟨_, by simp [CorrelatedObject.Index, hmemo, hv, hb], rfl, rfl, Or.inl rfl⟩
        · cases hcor : correlateOldValueForChildAtNewIndex (CorrelatedObject.mk o v (some (Schema.mk props addP its lt mks)) cmp ml cs) i with
          | fault =>
            left
            simp [CorrelatedObject.Index, hmemo, hv, hb, hcor]
          | ok p =>
            obtain ⟨oldV, l2⟩ := p
            have hst := correlate_state _ i oldV l2 hcor
            by_cases hnull : oldV.isNull = true
            · right; left
              refine ⟨l2, by simp [CorrelatedObject.Index, hmemo, hv, hb, hcor, hnull], ?_, ?_, ?_⟩
              · simpa using hst.1
              · simpa using hst.2.1
              · simpa using hst.2.2
            · cases its with
              | none =>
                right; left
                refine ⟨l2, by simp [CorrelatedObject.Index, hmemo, hv, hb, hcor, hnull], ?_, ?_, ?_⟩
                · simpa using hst.1
                · simpa using hst.2.1
                · simpa using hst.2.2
              | some itemS =>
                cases hg : listGetInt newL i with
                | fault =>
                  left
                  simp [CorrelatedObject.Index, hmemo, hv, hb, hcor, hnull, hg]
                | ok newElem =>
                  obtain ⟨b1, b2, b3, b4, b5, b6⟩ := l2
                  right; right; right
                  refine ⟨NewCorrelatedObject newElem oldV (some itemS),
                          (CorrelatedObject.mk b1 b2 b3 b4 b5 b6).setChildren ((CorrelatedObject.mk b1 b2 b3 b4 b5 b6).children ++ [(ChildKey.idx i, NewCorrelatedObject newElem oldV (some itemS))]),
                          by simpa using hmemo,
                          by simp [CorrelatedObject.Index, hmemo, hv, hb, hcor, hnull, hg], ?_, ?_, ?_⟩
                  · have h1 : b6 = cs := by simpa using hst.1
                    simp [CorrelatedObject.setChildren, h1]
                  · have h1 : b4 = cmp := by simpa using hst.2.1
                    simp [CorrelatedObject.setChildren, h1]
                  · have h1 : b5 = ml ∨ ml = none := by simpa using hst.2.2
                    simpa [CorrelatedObject.setChildren] using h1

/-- Map-type list schema keyed by the witness field. -/
def wMapListSchema : Schema :=
  Schema.mk [] none (some wItemSchema) (some listTypeMap) [wField]

/-- Map-type list node whose new element lacks the merge key, so the
keyed lookup misses. -/
def cexMapListNode : CorrelatedObject :=
  CorrelatedObject.mk (JSONValue.arr [JSONValue.obj [(wField, JSONValue.num 1)]]) (JSONValue.arr [JSONValue.obj []]) (some wMapListSchema) none none []

/-- Counterexample to claim C10 as stated: an Index lookup on a map-type
list that returns null nevertheless builds and retains the map-index
cache — the node state is not left unchanged by the failed lookup. -/
theorem claim_C10_counterexample :
    cexMapListNode.mapList = none ∧
    CorrelatedObject.Index (some cexMapListNode) 0 =
      Exec.ok (none, some (cexMapListNode.setMapList (some (makeMapList wMapListSchema [JSONValue.obj [(wField, JSONValue.num 1)]])))) ∧
    (cexMapListNode.setMapList (some (makeMapList wMapListSchema [JSONValue.obj [(wField, JSONValue.num 1)]]))).mapList.isSome = true :=
  ⟨rfl, rfl, rfl⟩

/-- Claim C10 (amended): the children map contains only successfully
correlated children and is append-only; an entry is added exactly when a
Key or Index lookup succeeds; a lookup that returns null leaves the
children and the equality cache unchanged and is not negatively cached,
but an Index lookup on a map-type list may build and retain the map-index
cache even when it returns null (Key never touches it); a repeated
successful lookup with the same key returns the memoized child and leaves
the node unchanged. -/
theorem claim_C10 (l : CorrelatedObject) (field : String) (i : Int) :
    ((CorrelatedObject.Key (some l) field).1 = none → (CorrelatedObject.Key (some l) field).2 = some l) ∧
    (∀ l2 : CorrelatedObject, CorrelatedObject.Index (some l) i = Exec.ok (none, some l2) →
      l2.children = l.children ∧ l2.comparisonResult = l.comparisonResult ∧
      (l2.mapList = l.mapList ∨ l.mapList = none)) ∧
    (∀ c l2 : CorrelatedObject, lookupChild l.children (ChildKey.field field) = none →
      CorrelatedObject.Key (some l) field = (some c, some l2) →
      l2.children = l.children ++ [(ChildKey.field field, c)] ∧
      l2.comparisonResult = l.comparisonResult ∧ l2.mapList = l.mapList) ∧
    (∀ c l2 : CorrelatedObject, lookupChild l.children (ChildKey.idx i) = none →
      CorrelatedObject.Index (some l) i = Exec.ok (some c, some l2) →
      l2.children = l.children ++ [(ChildKey.idx i, c)] ∧
      l2.comparisonResult = l.comparisonResult) ∧
    (∀ c : CorrelatedObject, l.Schema ≠ none → lookupChild l.children (ChildKey.field field) = some c →
      CorrelatedObject.Key (some l) field = (some c, some l)) ∧
    (∀ c : CorrelatedObject, l.Schema ≠ none → lookupChild l.children (ChildKey.idx i) = some c →
      CorrelatedObject.Index (some l) i = Exec.ok (some c, some l)) := by
  refine ⟨?_, ?_, ?_, ?_, ?_, ?_⟩
  · intro h
    rcases Key_cases l field with he | ⟨c, hm, he⟩ | ⟨c, hm, he⟩
    · rw [he]
    · rw [he] at h
      simp at h
    · rw [he] at h
      simp at h
  · intro l2 h
    rcases Index_cases l i with he | ⟨l3, he, h1, h2, h3⟩ | ⟨c, hm, he⟩ | ⟨c, l3, hm, he, h1, h2, h3⟩
    · rw [he] at h
      cases h
    · have hq := he.symm.trans h
      simp only [Exec.ok.injEq, Prod.mk.injEq, Option.some.injEq] at hq
      obtain ⟨hq1, hq2⟩ := hq
      subst hq2
      exact ⟨h1, h2, h3⟩
    · have hq := he.symm.trans h
      simp at hq
    · have hq := he.symm.trans h
      simp at hq
  · intro c l2 hm h
    rcases Key_cases l field with he | ⟨c2, hm2, he⟩ | ⟨c2, hm2, he⟩
    · have hq := he.symm.trans h
      simp at hq
    · rw [hm] at hm2
      cases hm2
    · have hq := he.symm.trans h
      simp only [Prod.mk.injEq, Option.some.injEq] at hq
      obtain ⟨hq1, hq2⟩ := hq
      subst hq1
      subst hq2
      exact ⟨children_setChildren _ _, comparisonResult_setChildren _ _, mapList_setChildren _ _⟩
  · intro c l2 hm h
    rcases Index_cases l i with he | ⟨l3, he, h1, h2, h3⟩ | ⟨c2, hm2, he⟩ | ⟨c2, l3, hm2, he, h1, h2, h3⟩
    · rw [he] at h
      cases h
    · have hq := he.symm.trans h
      simp at hq
    · rw [hm] at hm2
      cases hm2
    · have hq := he.symm.trans h
      simp only [Exec.ok.injEq, Prod.mk.injEq, Option.some.injEq] at hq
      obtain ⟨hq1, hq2⟩ := hq
      subst hq1
      subst hq2
      exact ⟨h1, h2⟩
  · intro c hs hm
    obtain ⟨o, v, sch, cmp, ml, cs⟩ := l
    simp only [CorrelatedObject.Schema] at hs
    simp only [CorrelatedObject.children] at hm
    cases sch with
    | none => simp at hs
    | some s => simp [CorrelatedObject.Key, hm]
  · intro c hs hm
    obtain ⟨o, v, sch, cmp, ml, cs⟩ := l
    simp only [CorrelatedObject.Schema] at hs
    simp only [CorrelatedObject.children] at hm
    cases sch with
    | none => simp at hs
    | some s => simp [CorrelatedObject.Index, hm]

theorem claim_C10_witness :
    lookupChild wMapNode.children (ChildKey.field wField) = none ∧
    ((NewCorrelatedObject (JSONValue.num 2) (JSONValue.num 1) (some wPropSchema) : CorrelatedObject) ≠ wMapNode → True) ∧
    ((wMapNode.setChildren (wMapNode.children ++ [(ChildKey.field wField, NewCorrelatedObject (JSONValue.num 2) (JSONValue.num 1) (some wPropSchema))])).children =
       wMapNode.children ++ [(ChildKey.field wField, NewCorrelatedObject (JSONValue.num 2) (JSONValue.num 1) (some wPropSchema))] ∧
     (wMapNode.setChildren (wMapNode.children ++ [(ChildKey.field wField, NewCorrelatedObject (JSONValue.num 2) (JSONValue.num 1) (some wPropSchema))])).comparisonResult = wMapNode.comparisonResult ∧
     (wMapNode.setChildren (wMapNode.children ++ [(ChildKey.field wField, NewCorrelatedObject (JSONValue.num 2) (JSONValue.num 1) (some wPropSchema))])).mapList = wMapNode.mapList) :=
  ⟨rfl, fun _ => trivial,
   (claim_C10 wMapNode wField 0).2.2.1
     (NewCorrelatedObject (JSONValue.num 2) (JSONValue.num 1) (some wPropSchema))
     (wMapNode.setChildren (wMapNode.children ++ [(ChildKey.field wField, NewCorrelatedObject (JSONValue.num 2) (JSONValue.num 1) (some wPropSchema))]))
     rfl rfl⟩

theorem cdeListLoop_stop (orig acc : List (ChildKey × CorrelatedObject)) (i n : Nat) (h : ¬ i < n) :
    cdeListLoop orig acc i n = (true, acc) := by
  rw [cdeListLoop.eq_def, dif_neg h]

theorem cdeListLoop_miss (orig acc : List (ChildKey × CorrelatedObject)) (i n : Nat) (hin : i < n)
    (hc : lookupChild orig (ChildKey.idx (i : Int)) = none) :
    cdeListLoop orig acc i n = (false, acc) := by
  rw [cdeListLoop.eq_def, dif_pos hin]
  split
  · rfl
  · rename_i child heq
    rw [hc] at heq
    cases heq

theorem cdeListLoop_hit (orig acc : List (ChildKey × CorrelatedObject)) (i n : Nat) (child : CorrelatedObject) (hin : i < n)
    (hc : lookupChild orig (ChildKey.idx (i : Int)) = some child) :
    cdeListLoop orig acc i n =
      (if (CachedDeepEqual child).1 = true then
        cdeListLoop orig (updateChild acc (ChildKey.idx (i : Int)) (CachedDeepEqual child).2) (i + 1) n
      else (false, updateChild acc (ChildKey.idx (i : Int)) (CachedDeepEqual child).2)) := by
  rw [cdeListLoop.eq_def, dif_pos hin]
  split
  · rename_i heq
    rw [hc] at heq
    cases heq
  · rename_i child2 heq
    rw [hc] at heq
    injection heq with heq2
    subst heq2
    rfl

theorem specListLoop_stop (orig : List (ChildKey × CorrelatedObject)) (i n : Nat) (h : ¬ i < n) :
    specListLoop orig i n = true := by
  rw [specListLoop.eq_def, dif_neg h]

theorem specListLoop_miss (orig : List (ChildKey × CorrelatedObject)) (i n : Nat) (hin : i < n)
    (hc : lookupChild orig (ChildKey.idx (i : Int)) = none) :
    specListLoop orig i n = false := by
  rw [specListLoop.eq_def, dif_pos hin]
  split
  · rfl
  · rename_i child heq
    rw [hc] at heq
    cases heq

theorem specListLoop_hit (orig : List (ChildKey × CorrelatedObject)) (i n : Nat) (child : CorrelatedObject) (hin : i < n)
    (hc : lookupChild orig (ChildKey.idx (i : Int)) = some child) :
    specListLoop orig i n = (specDeepEqual child && specListLoop orig (i + 1) n) := by
  rw [specListLoop.eq_def, dif_pos hin]
  split
  · rename_i heq
    rw [hc] at heq
    cases heq
  · rename_i child2 heq
    rw [hc] at heq
    injection heq with heq2
    subst heq2
    rfl

theorem cdeMapLoop_nil (orig acc : List (ChildKey × CorrelatedObject)) :
    cdeMapLoop orig acc [] = (true, acc) := by
  simp only [cdeMapLoop]

theorem cdeMapLoop_miss (orig acc : List (ChildKey × CorrelatedObject)) (k : String) (rest : List String)
    (hc : lookupChild orig (ChildKey.field k) = none) :
    cdeMapLoop orig acc (k :: rest) = (false, acc) := by
  simp only [cdeMapLoop]
  split
  · rfl
  · rename_i child heq
    rw [hc] at heq
    cases heq

theorem cdeMapLoop_hit (orig acc : List (ChildKey × CorrelatedObject)) (k : String) (rest : List String) (child : CorrelatedObject)
    (hc : lookupChild orig (ChildKey.field k) = some child) :
    cdeMapLoop orig acc (k :: rest) =
      (if (CachedDeepEqual child).1 = true then
        cdeMapLoop orig (updateChild acc (ChildKey.field k) (CachedDeepEqual child).2) rest
      else (false, updateChild acc (ChildKey.field k) (CachedDeepEqual child).2)) := by
  simp only [cdeMapLoop]
  split
  · rename_i heq
    rw [hc] at heq
    cases heq
  · rename_i child2 heq
    rw [hc] at heq
    injection heq with heq2
    subst heq2
    rfl

theorem specMapLoop_nil (orig : List (ChildKey × CorrelatedObject)) :
    specMapLoop orig [] = true := by
  simp only [specMapLoop]

theorem specMapLoop_miss (orig : List (ChildKey × CorrelatedObject)) (k : String) (rest : List String)
    (hc : lookupChild orig (ChildKey.field k) = none) :
    specMapLoop orig (k :: rest) = false := by
  simp only [specMapLoop]
  split
  · rfl
  · rename_i child heq
    rw [hc] at heq
    cases heq

theorem specMapLoop_hit (orig : List (ChildKey × CorrelatedObject)) (k : String) (rest : List String) (child : CorrelatedObject)
    (hc : lookupChild orig (ChildKey.field k) = some child) :
    specMapLoop orig (k :: rest) = (specDeepEqual child && specMapLoop orig rest) := by
  simp only [specMapLoop]
  split
  · rename_i heq
    rw [hc] at heq
    cases heq
  · rename_i child2 heq
    rw [hc] at heq
    injection heq with heq2
    subst heq2
    rfl

theorem cacheOk_of_lookup (cs : List (ChildKey × CorrelatedObject)) (k : ChildKey) (c : CorrelatedObject)
    (hc : lookupChild cs k = some c) (h : cacheOkChildren cs = true) : cacheOk c = true := by
  induction cs with
  | nil => simp [lookupChild] at hc
  | cons hd tl ih =>
    obtain ⟨k2, c2⟩ := hd
    rw [lookupChild] at hc
    unfold cacheOkChildren at h
    simp only [Bool.and_eq_true] at h
    by_cases hk : k2 = k
    · rw [if_pos hk] at hc
      injection hc with hc2
      subst hc2
      exact h.1
    · rw [if_neg hk] at hc
      exact ih hc h.2

mutual

theorem cde_eq_spec (r : CorrelatedObject) (h : cacheOk r = true) : (CachedDeepEqual r).1 = specDeepEqual r := by
  cases hcr : r.comparisonResult with
  | some b =>
    rw [CachedDeepEqual_cached r b hcr]
    unfold cacheOk at h
    rw [hcr] at h
    simp only [Bool.and_eq_true, beq_iff_eq] at h
    simpa using h.1
  | none =>
    rw [CachedDeepEqual_not_cached r hcr]
    unfold cacheOk at h
    simp only [Bool.and_eq_true] at h
    simpa using cdeCompute_eq_spec r h.2
termination_by (sizeOf r, 2)
decreasing_by
  simp_wf
  exact Prod.Lex.right (sizeOf r) (by omega)

theorem cdeCompute_eq_spec (r : CorrelatedObject) (h : cacheOkChildren r.children = true) : (cdeCompute r).1 = specDeepEqual r := by
  unfold cdeCompute specDeepEqual
  by_cases h1 : (r.Value.isNull && r.OldValue.isNull) = true
  · rw [if_pos h1, if_pos h1]
  · rw [if_neg h1, if_neg h1]
    by_cases h2 : (r.Value.isNull || r.OldValue.isNull) = true
    · rw [if_pos h2, if_pos h2]
    · rw [if_neg h2, if_neg h2]
      cases ha : asArr r.OldValue with
      | some oldArr =>
        cases hv : asArr r.Value with
        | some newArr =>
          simp only [ha, hv]
          by_cases h3 : (oldArr.length != newArr.length) = true
          · rw [if_pos h3, if_pos h3]
          · rw [if_neg h3, if_neg h3]
            by_cases h4 : (r.children.length != oldArr.length) = true
            · rw [if_pos h4, if_pos h4]
            · rw [if_neg h4, if_neg h4]
              simpa using cdeList_eq_spec r.children r.children 0 newArr.length h
        | none => simp only [ha, hv]
      | none =>
        cases hv : asArr r.Value with
        | some newArr => simp only [ha, hv]
        | none =>
          simp only [ha, hv]
          cases ho : asObj r.OldValue with
          | some oldMap =>
            cases hn : asObj r.Value with
            | some newMap =>
              simp only [ho, hn]
              by_cases h3 : (oldMap.length != newMap.length) = true
              · rw [if_pos h3, if_pos h3]
              · rw [if_neg h3, if_neg h3]
                by_cases h4 : (oldMap.length == 0 && newMap.length == 0) = true
                · rw [if_pos h4, if_pos h4]
                · rw [if_neg h4, if_neg h4]
                  by_cases h5 : (r.children.length != oldMap.length) = true
                  · rw [if_pos h5, if_pos h5]
                  · rw [if_neg h5, if_neg h5]
                    simpa using cdeMap_eq_spec r.children r.children (oldMap.map Prod.fst) h
            | none => simp only [ho, hn]
          | none =>
            cases hn : asObj r.Value with
            | some newMap => simp only [ho, hn]
            | none => simp only [ho, hn]
termination_by (sizeOf r, 1)
decreasing_by
  · simp_wf
    exact Prod.Lex.left _ _ (sizeOf_children_lt r)
  · simp_wf
    exact Prod.Lex.left _ _ (sizeOf_children_lt r)

theorem cdeList_eq_spec (orig acc : List (ChildKey × CorrelatedObject)) (i n : Nat) (h : cacheOkChildren orig = true) :
    (cdeListLoop orig acc i n).1 = specListLoop orig i n := by
  by_cases hin : i < n
  · cases hc : lookupChild orig (ChildKey.idx (i : Int)) with
    | none => rw [cdeListLoop_miss orig acc i n hin hc, specListLoop_miss orig i n hin hc]
    | some child =>
      rw [cdeListLoop_hit orig acc i n child hin hc, specListLoop_hit orig i n child hin hc]
      have hcok : cacheOk child = true := cacheOk_of_lookup orig _ child hc h
      have heq := cde_eq_spec child hcok
      by_cases hs : specDeepEqual child = true
      · rw [if_pos (heq.trans hs), hs, Bool.true_and]
        exact cdeList_eq_spec orig (updateChild acc (ChildKey.idx (i : Int)) (CachedDeepEqual child).2) (i + 1) n h
      · have hs2 : specDeepEqual child = false := by
          revert hs
          cases specDeepEqual child <;> simp
        rw [if_neg (by rw [heq, hs2]; simp), hs2, Bool.false_and]
  · rw [cdeListLoop_stop orig acc i n hin, specListLoop_stop orig i n hin]
termination_by (sizeOf orig, n - i)
decreasing_by
  · simp_wf
    exact Prod.Lex.left _ _ (sizeOf_lookupChild_lt orig _ child hc)
  · simp_wf
    exact Prod.Lex.right (sizeOf orig) (by omega)

theorem cdeMap_eq_spec (orig acc : List (ChildKey × CorrelatedObject)) (keys : List String) (h : cacheOkChildren orig = true) :
    (cdeMapLoop orig acc keys).1 = specMapLoop orig keys := by
  cases keys with
  | nil => rw [cdeMapLoop_nil orig acc, specMapLoop_nil orig]
  | cons k rest =>
    cases hc : lookupChild orig (ChildKey.field k) with
    | none => rw [cdeMapLoop_miss orig acc k rest hc, specMapLoop_miss orig k rest hc]
    | some child =>
      rw [cdeMapLoop_hit orig acc k rest child hc, specMapLoop_hit orig k rest child hc]
      have hcok : cacheOk child = true := cacheOk_of_lookup orig _ child hc h
      have heq := cde_eq_spec child hcok
      by_cases hs : specDeepEqual child = true
      · rw [if_pos (heq.trans hs), hs, Bool.true_and]
        exact cdeMap_eq_spec orig (updateChild acc (ChildKey.field k) (CachedDeepEqual child).2) rest h
      · have hs2 : specDeepEqual child = false := by
          revert hs
          cases specDeepEqual child <;> simp
        rw [if_neg (by rw [heq, hs2]; simp), hs2, Bool.false_and]
termination_by (sizeOf orig, keys.length)
decreasing_by
  · simp_wf
    exact Prod.Lex.left _ _ (sizeOf_lookupChild_lt orig _ child hc)
  · simp_wf
    exact Prod.Lex.right (sizeOf orig) (by omega)

end

/-- Claim C4: on every correlation tree whose memoized comparison results
are consistent (every state the validator itself produces), CachedDeepEqual
computes exactly the five-step reference algorithm of the specification:
null handling, list branch with length and populated-children checks and
recursive per-index children, map branch with key-count check, both-empty
early equality, populated-children check and recursive per-key children,
mixed shapes unequal, and the generic structural fallback for scalars. -/
theorem claim_C4 (r : CorrelatedObject) (h : cacheOk r = true) : (CachedDeepEqual r).1 = specDeepEqual r :=
  cde_eq_spec r h

/-- Scalar node used by the C4 witness. -/
def wC4Node : CorrelatedObject :=
  CorrelatedObject.mk (JSONValue.bool true) (JSONValue.bool true) none none none []

theorem claim_C4_witness :
    cacheOk wC4Node = true ∧ (CachedDeepEqual wC4Node).1 = specDeepEqual wC4Node :=
  ⟨by simp [cacheOk, cacheOkChildren, wC4Node],
   claim_C4 wC4Node (by simp [cacheOk, cacheOkChildren, wC4Node])⟩

end Ratcheting
